import Mathlib

set_option maxHeartbeats 1000000

/-!
Shallow embedding of `src/lib/inspect_rpmdeps.c` from rpminspect: the
cross-build dependency consistency verifier.  Dependency rules, subpackage
peers and the whole build are modelled as Lean structures; each C function
becomes a pure Lean function returning the findings it emits together with
its boolean result.  External collaborators that live outside the embedded
file (string helpers, `deprules_match`, `gather_deprules`, constants) are
modelled from the specification and marked as such.
-/

/-- Dependency rule kinds (`TYPE_REQUIRES`, `TYPE_PROVIDES`, ...); only
Requires and Provides receive special handling. -/
inductive DepType where
  | tRequires
  | tProvides
  | tConflicts
  | tObsoletes
  | tRecommends
  | tSuggests
  | tOther
deriving DecidableEq

/-- Dependency rule comparison operators (`OP_NULL`, `OP_EQUAL`, ...). -/
inductive DepOp where
  | opNone
  | opEqual
  | opLess
  | opLessEqual
  | opGreater
  | opGreaterEqual
deriving DecidableEq

/-- The pure data of a dependency rule: kind, subject, operator and optional
version string.  This is what a peer link refers to and what findings
record. -/
structure DepruleData where
  type : DepType
  requirement : String
  operator : DepOp
  version : Option String
deriving DecidableEq

/-- One dependency rule (`deprule_entry_t`): its data plus the externally
established peer link into the other build and the `providers` list populated
by the Explicit-Library-Requirement Verifier. -/
structure Deprule where
  type : DepType
  requirement : String
  operator : DepOp
  version : Option String
  peer_deprule : Option DepruleData
  providers : List String
deriving DecidableEq

def Deprule.toData (d : Deprule) : DepruleData :=
  ⟨d.type, d.requirement, d.operator, d.version⟩

/-- RPM header abstraction: the fields of a package header this inspection
reads (`headerGetString`/`headerGetNumber`/`headerIsSource`), the package's
file list (used only for spec-file discovery) and, modelled from the spec,
the dependency rules that the external rule-extraction service
`gather_deprules` would produce from this header. -/
structure Header where
  name : String
  version : String
  release : String
  epoch : Nat
  arch : String
  isSource : Bool
  files : List String
  deprules : List Deprule
deriving DecidableEq

/-- One subpackage peer (`rpmpeer_entry_t`).  The after header is required
non-null by the caller contract; the before header is present only when a
prior build exists. -/
structure RpmPeer where
  before_hdr : Option Header
  after_hdr : Header
  before_deprules : Option (List Deprule)
  after_deprules : Option (List Deprule)
deriving DecidableEq

/-- The inspection input (`struct rpminspect`, the fields this inspection
reads): the peer list, presence of the before and after builds, and —
modelled from the spec — the result of the external rebase-detection
predicate `is_rebase`. -/
structure Rpminspect where
  peers : List RpmPeer
  before : Bool
  after : Bool
  rebase : Bool
deriving DecidableEq

/-- Finding severities (`RESULT_OK` < `RESULT_INFO` < `RESULT_VERIFY` <
`RESULT_BAD`). -/
inductive Severity where
  | RESULT_OK
  | RESULT_INFO
  | RESULT_VERIFY
  | RESULT_BAD
deriving DecidableEq

/-- Waiver eligibility (`waiverauth_t`). -/
inductive Waiver where
  | NOT_WAIVABLE
  | WAIVABLE_BY_ANYONE
deriving DecidableEq

/-- Remediation identifiers used by this inspection. -/
inductive Remedy where
  | REMEDY_RPMDEPS_MACROS
  | REMEDY_RPMDEPS_EXPLICIT
  | REMEDY_RPMDEPS_EXPLICIT_EPOCH
  | REMEDY_RPMDEPS_MULTIPLE
  | REMEDY_RPMDEPS_EPOCH
  | REMEDY_RPMDEPS_GAINED
  | REMEDY_RPMDEPS_CHANGED
  | REMEDY_RPMDEPS_LOST
deriving DecidableEq

/-- Reporting verbs. -/
inductive Verb where
  | VERB_OK
  | VERB_FAILED
  | VERB_ADDED
  | VERB_REMOVED
  | VERB_CHANGED
deriving DecidableEq

/-- Structured content of a finding: which site in the inspection emitted it
and the data interpolated into its message/noun strings.  The `expected`
flag on `changed` records whether the "this is expected" qualifier was
appended to the message. -/
inductive FindingTag where
  | unexpandedMacro (name arch : String) (rule : DepruleData)
  | missingExplicitReq (name arch provider : String) (rule : DepruleData)
  | multipleProviders (name arch : String) (rule : DepruleData) (providers : List String)
  | epochMissing (name arch : String) (rule : DepruleData)
  | gained (name arch : String) (rule : DepruleData)
  | retained (name arch : String) (rule : DepruleData)
  | changed (name arch : String) (rule : DepruleData) (fromRule : DepruleData) (expected : Bool)
  | lost (name arch : String) (rule : DepruleData)
  | passed
deriving DecidableEq

/-- One emitted finding: the `result_params` fields at the `add_result`
call, plus the structured tag. -/
structure Finding where
  severity : Severity
  waiverauth : Waiver
  remedy : Option Remedy
  verb : Verb
  file : Option String
  arch : Option String
  tag : FindingTag
deriving DecidableEq

/-! ## String helpers

`strprefix`, `strsuffix` and `strstr` are library helpers of the
surrounding project; their semantics are the standard prefix, suffix and
substring tests. -/

/-- `strprefix(s, p)`: `p` is a prefix of `s`. -/
def strPre (s p : String) : Bool := p.data.isPrefixOf s.data

/-- `strsuffix(s, p)`: `p` is a suffix of `s`. -/
def strSuf (s p : String) : Bool := p.data.isSuffixOf s.data

/-- Substring test over character lists: `need` occurs contiguously in
`hay`. -/
def hasInfix (hay need : List Char) : Bool :=
  match hay with
  | [] => need.isEmpty
  | a :: t => need.isPrefixOf (a :: t) || hasInfix t need

/-- `strstr(s, sub) != NULL`: `sub` occurs as a substring of `s`. -/
def strHas (s sub : String) : Bool := hasInfix s.data sub.data

/-- `s[strcspn(s, "(")] = 0`: truncate the string at its first opening
parenthesis (the architecture-qualifier trim); identity when no parenthesis
occurs. -/
def trimIsa (s : String) : String :=
  String.mk (s.data.takeWhile (fun c => c ≠ '('))

/-- `SHARED_LIB_PREFIX` from the project constants: `"lib"`. -/
def sharedLibPre : String := "lib"

/-- `SRPM_ARCH_NAME` from the project constants: `"src"`. -/
def srpmArchName : String := "src"

/-- `SPEC_FILENAME_EXTENSION` from the project constants: `".spec"`. -/
def specExtension : String := ".spec"

/-- Modelled from the spec: the external rule-rendering collaborator
`strdeprule`, which formats one dependency rule as its declaration string
(subject, then operator and version when present). -/
def opText : DepOp → String
  | DepOp.opNone => ""
  | DepOp.opEqual => "="
  | DepOp.opLess => "<"
  | DepOp.opLessEqual => "<="
  | DepOp.opGreater => ">"
  | DepOp.opGreaterEqual => ">="

/-- Modelled from the spec: `strdeprule` renders a rule as its declaration
string. -/
def strdeprule (d : DepruleData) : String :=
  match d.operator, d.version with
  | DepOp.opNone, _ => d.requirement
  | op, some v => d.requirement ++ " " ++ opText op ++ " " ++ v
  | _, none => d.requirement

/-- Modelled from the spec: `list_add` appends one name to a rule's
`providers` list (ordered, duplicates kept). -/
def list_add (l : List String) (s : String) : List String := l ++ [s]

/-- Modelled from the spec: the external structural rule-equality
collaborator `deprules_match` — two rules are equivalent when kind, subject,
operator and version all agree. -/
def deprules_match (a : Deprule) (b : DepruleData) : Bool :=
  decide (a.type = b.type) && decide (a.requirement = b.requirement) &&
    decide (a.operator = b.operator) && decide (a.version = b.version)

/-! ## Effective rule lists

Pass 1 of `inspect_rpmdeps` materializes each peer's deprule lists with
`gather_deprules` when they are still null; `gather_deprules` is the
external rule-extraction service, modelled from the spec as the rules
declared in the package header. -/

/-- Modelled from the spec: `gather_deprules` extracts the declared rules
from a header. -/
def gather_deprules (h : Header) : List Deprule := h.deprules

/-- The after-rule list of a peer as it stands from pass 1 onwards. -/
def effAfterDeps (p : RpmPeer) : List Deprule :=
  p.after_deprules.getD (gather_deprules p.after_hdr)

/-- The before-rule list of a peer as it stands from pass 1 onwards:
gathered from the before header only when that header is present. -/
def effBeforeDeps (p : RpmPeer) : Option (List Deprule) :=
  match p.before_deprules with
  | some l => some l
  | none =>
      match p.before_hdr with
      | some h => some (gather_deprules h)
      | none => none

/-! ## Generic pass plumbing

Each checking site contributes a pair of emitted findings and a boolean
sub-result; a pass concatenates the findings in order and conjoins the
booleans, exactly as the C accumulates `result`. -/

def runChecks (steps : List (List Finding × Bool)) : List Finding × Bool :=
  steps.foldr (fun s acc => (s.1 ++ acc.1, s.2 && acc.2)) ([], true)

theorem runChecks_fst (steps : List (List Finding × Bool)) :
    (runChecks steps).1 = steps.flatMap Prod.fst := by
  induction steps with
  | nil => rfl
  | cons s t ih => simp [runChecks, List.foldr] at ih ⊢; simp [ih]

theorem runChecks_snd (steps : List (List Finding × Bool)) :
    (runChecks steps).2 = steps.all Prod.snd := by
  induction steps with
  | nil => rfl
  | cons s t ih => simp [runChecks, List.foldr] at ih ⊢; simp [ih]

/-! ## Placeholder Scanner (`have_unexpanded_macros`)

The C computes `near = strstr(version, "%{")` and, when that hit, `far =
strstr(version, "}")` — the close-marker search restarts from the beginning
of the string, so the rule is flagged when the version contains `%{`
anywhere and `}` anywhere, in either order. -/

/-- Whether one rule is flagged by the Placeholder Scanner. -/
def macroFlagged (d : Deprule) : Bool :=
  match d.version with
  | none => false
  | some v => strHas v "%\x7b" && strHas v "\x7d"

/-- The finding emitted for one flagged rule. -/
def macroFinding (name arch : String) (d : Deprule) : Finding :=
  { severity := Severity.RESULT_BAD
    waiverauth := Waiver.WAIVABLE_BY_ANYONE
    remedy := some Remedy.REMEDY_RPMDEPS_MACROS
    verb := Verb.VERB_FAILED
    file := some (strdeprule d.toData)
    arch := some arch
    tag := FindingTag.unexpandedMacro name arch d.toData }

/-- Per-rule step of the Placeholder Scanner. -/
def macroStep (name arch : String) (d : Deprule) : List Finding × Bool :=
  if macroFlagged d then ([macroFinding name arch d], false) else ([], true)

/-- `have_unexpanded_macros`: scan one subpackage's after-rules. -/
def have_unexpanded_macros (name arch : String) (deprules : Option (List Deprule)) :
    List Finding × Bool :=
  match deprules with
  | none => ([], true)
  | some rules => runChecks (rules.map (macroStep name arch))

/-! ## Explicit-Library-Requirement Verifier (`check_explicit_lib_deps`)

Rule identity matters for the self-skip (`req == prov` compares pointers):
rules are addressed by their peer index and rule index within the effective
after-rule lists. -/

/-- Whether a Provides entry matches the Requires subject: exact string
equality, or — when either subject contains a parenthesis — equality after
trimming from the first parenthesis. -/
def provMatches (reqName provName : String) : Bool :=
  if reqName = provName then true
  else if strHas reqName "(" || strHas provName "(" then
    decide (trimIsa reqName = trimIsa provName)
  else false

/-- One iteration of the inner Provides scan: examine the rule at index `m`
of the candidate peer's after-rules, skipping the checking rule itself
(pointer identity: same peer, same index) and recording the peer's name on a
match. -/
def scanStep (selfPeer : Bool) (reqIdx : Nat) (reqName pn : String)
    (rules : List Deprule) (m : Nat) (acc : List String × Bool) : List String × Bool :=
  match rules[m]? with
  | none => acc
  | some prov =>
      if selfPeer ∧ m = reqIdx then acc
      else if prov.type = DepType.tProvides ∧ strPre prov.requirement sharedLibPre then
        if provMatches reqName prov.requirement then (pn :: acc.1, true) else acc
      else acc

/-- Scan one candidate peer's after-rules for Provides entries matching the
Requires subject; returns the provider names appended (in order) and whether
a provider was found in this peer.  `selfPeer` is true when this peer is the
checking peer itself, in which case the rule at `reqIdx` is skipped. -/
def scanPeerProvides (selfPeer : Bool) (reqIdx : Nat) (reqName : String)
    (pn : String) (rules : List Deprule) : List String × Bool :=
  (List.range rules.length).foldr (scanStep selfPeer reqIdx reqName pn rules) ([], false)

/-- Scan all peers, first-provider-wins: all matching Provides inside the
first peer that yields any match are recorded, then the peer loop stops.
Returns the accumulated provider names and the providing peer, if any.
`selfIdx` is the index of the checking peer; `j` the index of the peer at
the head of the list being scanned. -/
def scanProviders (selfIdx reqIdx : Nat) (reqName : String) :
    Nat → List RpmPeer → List String × Option RpmPeer
  | _, [] => ([], none)
  | j, p :: rest =>
      if (effAfterDeps p).isEmpty then scanProviders selfIdx reqIdx reqName (j + 1) rest
      else if (scanPeerProvides (j = selfIdx) reqIdx reqName p.after_hdr.name
          (effAfterDeps p)).2 then
        ((scanPeerProvides (j = selfIdx) reqIdx reqName p.after_hdr.name (effAfterDeps p)).1,
          some p)
      else scanProviders selfIdx reqIdx reqName (j + 1) rest

/-- The provider's expected explicit-version token: `version-release` when
its epoch is 0, else `epoch:version-release`. -/
def expectedToken (h : Header) : String :=
  if h.epoch > 0 then toString h.epoch ++ ":" ++ h.version ++ "-" ++ h.release
  else h.version ++ "-" ++ h.release

/-- Whether one after-rule is an explicit (non-library) Requires on the
provider name with the exact-equality operator — the guard evaluated before
the version comparison. -/
def explicitCandidate (pn : String) (v : Deprule) : Bool :=
  v.type = DepType.tRequires ∧ ¬ strPre v.requirement sharedLibPre ∧
    v.requirement = pn ∧ v.operator = DepOp.opEqual

/-- The verify scan of step 2: does the checking subpackage carry
`Requires: pn = tok`?  The C reads `verify->version` through `strcmp`
unguarded; here an absent version simply fails the comparison, and
`verifyAbsentRead` below records exactly when the unguarded read of an
absent version would occur. -/
def hasExplicitReq (afterDeps : List Deprule) (pn tok : String) : Bool :=
  afterDeps.any (fun v => explicitCandidate pn v ∧ v.version = some tok)

/-- True when the C scan of step 2 reaches `strcmp(verify->version, r)` with
`verify->version == NULL`: a name/operator-matching rule with an absent
version occurs before any rule that fully matches the token. -/
def verifyAbsentRead (pn tok : String) : List Deprule → Bool
  | [] => false
  | v :: rest =>
      if explicitCandidate pn v then
        match v.version with
        | none => true
        | some t => if t = tok then false else verifyAbsentRead pn tok rest
      else verifyAbsentRead pn tok rest

/-- The "missing explicit requirement" finding. -/
def missingReqFinding (name arch : String) (req : Deprule) (p : Header) : Finding :=
  { severity := Severity.RESULT_VERIFY
    waiverauth := Waiver.WAIVABLE_BY_ANYONE
    remedy := some (if p.epoch > 0 then Remedy.REMEDY_RPMDEPS_EXPLICIT_EPOCH
                    else Remedy.REMEDY_RPMDEPS_EXPLICIT)
    verb := Verb.VERB_FAILED
    file := some p.name
    arch := some arch
    tag := FindingTag.missingExplicitReq name arch p.name req.toData }

/-- The "multiple providers" finding. -/
def multipleFinding (name arch : String) (req : Deprule) (provs : List String) : Finding :=
  { severity := Severity.RESULT_VERIFY
    waiverauth := Waiver.WAIVABLE_BY_ANYONE
    remedy := some Remedy.REMEDY_RPMDEPS_MULTIPLE
    verb := Verb.VERB_FAILED
    file := some (strdeprule req.toData)
    arch := some arch
    tag := FindingTag.multipleProviders name arch req.toData provs }

/-- Whether one rule enters the Explicit-Library-Requirement Verifier's
per-rule body: a Requires whose subject carries the shared-library
prefix. -/
def libReqRule (req : Deprule) : Bool :=
  req.type = DepType.tRequires ∧ strPre req.requirement sharedLibPre

/-- The provider names appended to rule `k` of checking peer `i` during the
verifier's scan. -/
def providersAdded (peers : List RpmPeer) (i k : Nat) (req : Deprule) : List String :=
  if libReqRule req then (scanProviders i k req.requirement 0 peers).1 else []

/-- Rule `k` of checking peer `i` after the verifier ran: only `providers`
grows. -/
def updatedRule (peers : List RpmPeer) (i k : Nat) (req : Deprule) : Deprule :=
  { req with providers := req.providers ++ providersAdded peers i k req }

/-- The "missing explicit requirement" findings for rule `k` of checking
peer `i`: one finding when a provider was found but the checking
subpackage's after-rules carry no matching explicit Requires. -/
def libMissingFindings (peers : List RpmPeer) (name arch : String)
    (afterDeps : List Deprule) (i k : Nat) (req : Deprule) : List Finding :=
  match (scanProviders i k req.requirement 0 peers).2 with
  | none => []
  | some p =>
      if hasExplicitReq afterDeps p.after_hdr.name (expectedToken p.after_hdr) then []
      else [missingReqFinding name arch req p.after_hdr]

/-- The "multiple providers" findings for rule `k` of checking peer `i`:
one finding when the rule's providers list, after the scan's additions, has
more than one entry. -/
def libMultipleFindings (peers : List RpmPeer) (name arch : String)
    (i k : Nat) (req : Deprule) : List Finding :=
  if (req.providers ++ (scanProviders i k req.requirement 0 peers).1).length > 1 then
    [multipleFinding name arch req
      (req.providers ++ (scanProviders i k req.requirement 0 peers).1)]
  else []

/-- Findings and sub-result of the verifier for rule `k` of checking peer
`i` (`name`/`arch` are the checking peer's; `afterDeps` its after-rule
list). -/
def libStep (peers : List RpmPeer) (name arch : String) (afterDeps : List Deprule)
    (i k : Nat) (req : Deprule) : List Finding × Bool :=
  if libReqRule req then
    let fs := libMissingFindings peers name arch afterDeps i k req
      ++ libMultipleFindings peers name arch i k req
    (fs, fs.isEmpty)
  else ([], true)

/-- `check_explicit_lib_deps` for the peer at index `i`: findings and
sub-result over all of its after-rules. -/
def check_explicit_lib_deps (peers : List RpmPeer) (i : Nat) (h : Header)
    (afterDeps : List Deprule) : List Finding × Bool :=
  runChecks ((List.range afterDeps.length).map
    (fun k =>
      match afterDeps[k]? with
      | none => ([], true)
      | some req => libStep peers h.name h.arch afterDeps i k req))
/-! ## Epoch-Prefix Verifier (`check_explicit_epoch`) -/

/-- Whether one rule is flagged by the Epoch-Prefix Verifier: a present
version that ends with the subpackage's `version-release` but does not begin
with its `epoch:` prefix. -/
def epochFlagged (verrel epochPrefixStr : String) (d : Deprule) : Bool :=
  match d.version with
  | none => false
  | some v => strSuf v verrel && ! strPre v epochPrefixStr

/-- The finding emitted for one epoch-flagged rule. -/
def epochFinding (rebase : Bool) (name arch : String) (d : Deprule) : Finding :=
  { severity := if rebase then Severity.RESULT_INFO else Severity.RESULT_BAD
    waiverauth := if rebase then Waiver.NOT_WAIVABLE else Waiver.WAIVABLE_BY_ANYONE
    remedy := some Remedy.REMEDY_RPMDEPS_EPOCH
    verb := Verb.VERB_FAILED
    file := some (strdeprule d.toData)
    arch := some arch
    tag := FindingTag.epochMissing name arch d.toData }

/-- Per-rule step of the Epoch-Prefix Verifier.  `result = false` is set on
every flagged rule, in the rebase case too. -/
def epochStep (rebase : Bool) (verrel epochPrefixStr name arch : String) (d : Deprule) :
    List Finding × Bool :=
  if epochFlagged verrel epochPrefixStr d then ([epochFinding rebase name arch d], false)
  else ([], true)

/-- `check_explicit_epoch`: scan one subpackage's after-rules.  Subpackages
with an empty rule list or epoch 0 are skipped. -/
def check_explicit_epoch (rebase : Bool) (h : Header) (afterdeps : Option (List Deprule)) :
    List Finding × Bool :=
  match afterdeps with
  | none => ([], true)
  | some rules =>
      if rules.isEmpty then ([], true)
      else if h.epoch = 0 then ([], true)
      else
        runChecks (rules.map
          (epochStep rebase (h.version ++ "-" ++ h.release) (toString h.epoch ++ ":")
            h.name h.arch))

/-! ## Expected-Change Oracle (`expected_deprule_change`) -/

/-- The sibling-subpackage search predicate: an after header is present (the
model makes it always present), the peer is not a source package, and its
architecture and name match. -/
def siblingMatch (arch req : String) (p : RpmPeer) : Bool :=
  ! p.after_hdr.isSource && decide (p.after_hdr.arch = arch) &&
    decide (p.after_hdr.name = req)

/-- `expected_deprule_change`: decide whether a changed rule is an accepted
consequence of normal versioning.  `h` is the owning subpackage's after
header. -/
def expected_deprule_change (rebase : Bool) (deprule : Deprule) (h : Header)
    (peers : List RpmPeer) : Bool :=
  if h.isSource then true
  else if rebase then true
  else
    match peers.find? (siblingMatch h.arch
        (if strHas deprule.requirement "(" then trimIsa deprule.requirement
         else deprule.requirement)) with
    | none => false
    | some p =>
        if deprule.operator = DepOp.opEqual then
          if p.after_hdr.epoch > 0 then
            decide (deprule.version =
              some (toString p.after_hdr.epoch ++ ":" ++ p.after_hdr.version ++ "-"
                ++ p.after_hdr.release))
          else
            decide (deprule.version = some (p.after_hdr.version ++ "-" ++ p.after_hdr.release))
        else false

/-- True when the C oracle reaches `strcmp(deprule->version, ...)` with
`deprule->version == NULL`: non-source, non-rebase, a sibling was found and
the operator is exact-equality, but the rule's version is absent. -/
def oracleAbsentRead (rebase : Bool) (deprule : Deprule) (h : Header)
    (peers : List RpmPeer) : Bool :=
  if h.isSource ∨ rebase then false
  else
    (peers.find? (siblingMatch h.arch
        (if strHas deprule.requirement "(" then trimIsa deprule.requirement
         else deprule.requirement))).isSome ∧
      deprule.operator = DepOp.opEqual ∧ deprule.version = none

/-! ## Change Classifier (pass 3 of `inspect_rpmdeps`) -/

/-- Severity and waiver for an unexpected gained/changed/lost rule. -/
def rebaseSevWav (rebase : Bool) : Severity × Waiver :=
  if rebase then (Severity.RESULT_INFO, Waiver.NOT_WAIVABLE)
  else (Severity.RESULT_VERIFY, Waiver.WAIVABLE_BY_ANYONE)

/-- Classify one after-rule of a peer: Gained (no peer link), Retained
(structurally equal peer) or Changed.  Emits exactly one finding; the
sub-result is false exactly when that finding's severity is
`RESULT_VERIFY`. -/
def classifyAfterStep (rebase : Bool) (peers : List RpmPeer) (h : Header)
    (d : Deprule) : List Finding × Bool :=
  let name := h.name
  let arch := h.arch
  match d.peer_deprule with
  | none =>
      let sw := rebaseSevWav rebase
      ([{ severity := sw.1, waiverauth := sw.2,
          remedy := some Remedy.REMEDY_RPMDEPS_GAINED, verb := Verb.VERB_ADDED,
          file := some (strdeprule d.toData), arch := some arch,
          tag := FindingTag.gained name arch d.toData }],
        ! decide (sw.1 = Severity.RESULT_VERIFY))
  | some pd =>
      if deprules_match d pd then
        ([{ severity := Severity.RESULT_INFO, waiverauth := Waiver.NOT_WAIVABLE,
            remedy := none, verb := Verb.VERB_OK,
            file := some (strdeprule d.toData), arch := some arch,
            tag := FindingTag.retained name arch d.toData }], true)
      else
        let expected := expected_deprule_change rebase d h peers
        let sw := if expected then (Severity.RESULT_INFO, Waiver.NOT_WAIVABLE)
                  else rebaseSevWav rebase
        ([{ severity := sw.1, waiverauth := sw.2,
            remedy := some Remedy.REMEDY_RPMDEPS_CHANGED, verb := Verb.VERB_CHANGED,
            file := some (strdeprule d.toData), arch := some arch,
            tag := FindingTag.changed name arch d.toData pd expected }],
          ! decide (sw.1 = Severity.RESULT_VERIFY))

/-- Classify one before-rule of a peer: Lost when its peer link is absent,
otherwise nothing. -/
def classifyBeforeStep (rebase : Bool) (h : Header) (d : Deprule) :
    List Finding × Bool :=
  match d.peer_deprule with
  | some _ => ([], true)
  | none =>
      let sw := rebaseSevWav rebase
      ([{ severity := sw.1, waiverauth := sw.2,
          remedy := some Remedy.REMEDY_RPMDEPS_LOST, verb := Verb.VERB_REMOVED,
          file := some (strdeprule d.toData), arch := some h.arch,
          tag := FindingTag.lost h.name h.arch d.toData }],
        ! decide (sw.1 = Severity.RESULT_VERIFY))

/-- Pass 3 for one peer: classify its after-rules, then its lost
before-rules. -/
def classifyPeer (rebase : Bool) (peers : List RpmPeer) (p : RpmPeer) :
    List Finding × Bool :=
  let afterPart :=
    runChecks ((effAfterDeps p).map (classifyAfterStep rebase peers p.after_hdr))
  let beforePart :=
    match effBeforeDeps p with
    | none => ([], true)
    | some rules => runChecks (rules.map (classifyBeforeStep rebase p.after_hdr))
  (afterPart.1 ++ beforePart.1, afterPart.2 && beforePart.2)

/-! ## Orchestrator (`inspect_rpmdeps`) -/

/-- Spec-file discovery: the first file with the spec extension among the
source peers' after-build file lists, in peer order. -/
def findSpecfile (peers : List RpmPeer) : Option String :=
  match peers with
  | [] => none
  | p :: rest =>
      if p.after_hdr.isSource then
        match p.after_hdr.files.find? (fun f => strSuf f specExtension) with
        | some f => some f
        | none => findSpecfile rest
      else findSpecfile rest

/-- Pass 1: gather rules and run the Placeholder Scanner over every
peer. -/
def pass1 (ri : Rpminspect) : List Finding × Bool :=
  runChecks (ri.peers.map (fun p =>
    have_unexpanded_macros p.after_hdr.name p.after_hdr.arch (some (effAfterDeps p))))

/-- Pass 2: the Explicit-Library-Requirement Verifier and the Epoch-Prefix
Verifier over every peer. -/
def pass2 (ri : Rpminspect) : List Finding × Bool :=
  runChecks ((List.range ri.peers.length).map (fun i =>
    match ri.peers[i]? with
    | none => ([], true)
    | some p =>
        let lib := check_explicit_lib_deps ri.peers i p.after_hdr (effAfterDeps p)
        let ep := check_explicit_epoch ri.rebase p.after_hdr (some (effAfterDeps p))
        (lib.1 ++ ep.1, lib.2 && ep.2)))

/-- Pass 3: the Change Classifier, run only when both builds are present. -/
def pass3 (ri : Rpminspect) : List Finding × Bool :=
  if ri.before && ri.after then
    runChecks (ri.peers.map (classifyPeer ri.rebase ri.peers))
  else ([], true)

/-- The closing finding emitted when the whole verification passed. -/
def okFinding : Finding :=
  { severity := Severity.RESULT_OK, waiverauth := Waiver.NOT_WAIVABLE,
    remedy := none, verb := Verb.VERB_OK, file := none, arch := none,
    tag := FindingTag.passed }

/-- Result of one run: the findings stream, the aggregate verdict, and the
value of the process-wide `specfile` variable after the run. -/
structure RunResult where
  findings : List Finding
  verdict : Bool
  specfileOut : Option String
deriving DecidableEq

/-- `inspect_rpmdeps`: the whole inspection.  `specfile0` is the incoming
value of the module-level `specfile` variable (null on the first run in a
process); the discovered spec-file name overwrites it, a generic placeholder
fills it when it is still null, and every assignment of it into
`params.file` is overwritten before the corresponding `add_result`, so no
finding carries it. -/
def inspect_rpmdeps (ri : Rpminspect) (specfile0 : Option String) : RunResult :=
  let specfile1 :=
    match findSpecfile ri.peers with
    | some f => some f
    | none => specfile0
  let specfileFin :=
    match specfile1 with
    | some f => some f
    | none => some "spec file"
  let core := runChecks [pass1 ri, pass2 ri, pass3 ri]
  { findings := core.1 ++ (if core.2 then [okFinding] else [])
    verdict := core.2
    specfileOut := specfileFin }

/-- The after-rule lists of every peer as mutated by the run: pass 2 appends
provider names to shared-library Requires rules; nothing else changes. -/
def updatedAfterDeps (ri : Rpminspect) (i : Nat) : List Deprule :=
  match ri.peers[i]? with
  | none => []
  | some p => (effAfterDeps p).mapIdx (fun k req => updatedRule ri.peers i k req)

/-- All unguarded absent-version reads a run would perform: the step-2
verify scans of the Explicit-Library-Requirement Verifier and the version
comparison of the Expected-Change Oracle. -/
def runAbsentReads (ri : Rpminspect) : Bool :=
  ((List.range ri.peers.length).any (fun i =>
    match ri.peers[i]? with
    | none => false
    | some p =>
        (List.range (effAfterDeps p).length).any (fun k =>
          match (effAfterDeps p)[k]? with
          | none => false
          | some req =>
              if libReqRule req then
                match (scanProviders i k req.requirement 0 ri.peers).2 with
                | none => false
                | some prov =>
                    verifyAbsentRead prov.after_hdr.name (expectedToken prov.after_hdr)
                      (effAfterDeps p)
              else false)))
  || (ri.before && ri.after &&
      ri.peers.any (fun p =>
        (effAfterDeps p).any (fun d =>
          match d.peer_deprule with
          | none => false
          | some pd =>
              if deprules_match d pd then false
              else oracleAbsentRead ri.rebase d p.after_hdr ri.peers)))
/-! ## Helper lemmas: string predicates as propositions -/

theorem strPre_iff (s p : String) : strPre s p = true ↔ p.data <+: s.data := by
  simp [strPre, List.isPrefixOf_iff_prefix]

theorem strSuf_iff (s p : String) : strSuf s p = true ↔ p.data <:+ s.data := by
  simp [strSuf, List.isSuffixOf_iff_suffix]

theorem hasInfix_iff (hay need : List Char) : hasInfix hay need = true ↔ need <:+: hay := by
  induction hay with
  | nil =>
      simp [hasInfix, List.infix_nil, List.isEmpty_iff]
  | cons a t ih =>
      simp [hasInfix, List.infix_cons_iff, List.isPrefixOf_iff_prefix, ih]

theorem strHas_iff (s sub : String) : strHas s sub = true ↔ sub.data <:+: s.data := by
  simp [strHas, hasInfix_iff]

theorem hasInfix_singleton (hay : List Char) (c : Char) :
    hasInfix hay [c] = true ↔ c ∈ hay := by
  rw [hasInfix_iff]
  constructor
  · intro h
    exact h.mem (by simp)
  · intro h
    obtain ⟨l1, l2, rfl⟩ := List.mem_iff_append.mp h
    exact ⟨l1, l2, by simp⟩

theorem strHas_paren_iff (s : String) : strHas s "(" = true ↔ '(' ∈ s.data := by
  have h0 : strHas s "(" = hasInfix s.data ['('] := rfl
  rw [h0, hasInfix_singleton]

theorem trimIsa_of_no_paren (s : String) (h : strHas s "(" = false) : trimIsa s = s := by
  have hc : '(' ∉ s.data := by
    intro hmem
    rw [(strHas_paren_iff s).mpr hmem] at h
    exact Bool.true_eq_false.mp h
  have h1 : s.data.takeWhile (fun c => c ≠ '(') = s.data := by
    apply List.takeWhile_eq_self_iff.mpr
    intro c hcmem
    simp only [ne_eq, decide_eq_true_eq]
    intro hEq
    exact hc (hEq ▸ hcmem)
  unfold trimIsa
  rw [h1]

/-- The subject actually compared by the Expected-Change Oracle is always
the architecture-qualifier-trimmed subject. -/
theorem oracleSubject_eq_trim (r : String) :
    (if strHas r "(" then trimIsa r else r) = trimIsa r := by
  by_cases h : strHas r "(" = true
  · simp [h]
  · rw [Bool.not_eq_true] at h
    simp [h, trimIsa_of_no_paren r h]

/-- `provMatches` holds exactly on an exact subject match or a match after
architecture-qualifier trimming. -/
theorem provMatches_iff (reqName provName : String) :
    provMatches reqName provName = true ↔
      reqName = provName ∨ trimIsa reqName = trimIsa provName := by
  unfold provMatches
  by_cases h1 : reqName = provName
  · simp [h1]
  · simp only [if_neg h1]
    by_cases h2 : (strHas reqName "(" || strHas provName "(") = true
    · simp [h2, h1]
    · simp only [Bool.or_eq_true, not_or, Bool.not_eq_true] at h2
      simp only [Bool.or_eq_true, h2.1, h2.2, Bool.false_eq_true, or_self, if_neg]
      constructor
      · intro hf
        exact absurd hf (by simp)
      · intro hor
        rcases hor with h | h
        · exact absurd h h1
        · rw [trimIsa_of_no_paren _ h2.1, trimIsa_of_no_paren _ h2.2] at h
          exact absurd h h1

/-! ## Helper lemmas: findings bookkeeping -/

/-- Advisory-verify or blocking severity. -/
def failingSeverity (s : Severity) : Bool :=
  decide (s = Severity.RESULT_VERIFY) || decide (s = Severity.RESULT_BAD)

def isEpochTag : FindingTag → Bool
  | FindingTag.epochMissing _ _ _ => true
  | _ => false

def isMacroTag : FindingTag → Bool
  | FindingTag.unexpandedMacro _ _ _ => true
  | _ => false

def isMissingTag : FindingTag → Bool
  | FindingTag.missingExplicitReq _ _ _ _ => true
  | _ => false

def isMultiTag : FindingTag → Bool
  | FindingTag.multipleProviders _ _ _ _ => true
  | _ => false

def isRetainedTag : FindingTag → Bool
  | FindingTag.retained _ _ _ => true
  | _ => false

def isChangedTag : FindingTag → Bool
  | FindingTag.changed _ _ _ _ _ => true
  | _ => false

/-- A finding that neither fails the run through its severity nor is an
epoch-prefix finding (which fails the run at any severity). -/
def cleanFinding (f : Finding) : Bool :=
  ! (failingSeverity f.severity || isEpochTag f.tag)

def notOkSeverity (f : Finding) : Bool := ! decide (f.severity = Severity.RESULT_OK)

theorem runChecks_all_of (p : Finding → Bool) (steps : List (List Finding × Bool))
    (h : ∀ s ∈ steps, s.2 = s.1.all p) :
    (runChecks steps).2 = (runChecks steps).1.all p := by
  rw [runChecks_fst, runChecks_snd]
  induction steps with
  | nil => rfl
  | cons s t ih =>
      simp only [List.flatMap_cons, List.all_cons, List.all_append]
      rw [h s (List.mem_cons_self s t), ih (fun x hx => h x (List.mem_cons_of_mem s hx))]

theorem runChecks_forall (p : Finding → Bool) (steps : List (List Finding × Bool))
    (h : ∀ s ∈ steps, ∀ f ∈ s.1, p f = true) :
    ∀ f ∈ (runChecks steps).1, p f = true := by
  rw [runChecks_fst]
  intro f hf
  rw [List.mem_flatMap] at hf
  obtain ⟨s, hs, hfs⟩ := hf
  exact h s hs f hfs

theorem all_eq_isEmpty_of_forall_false {p : Finding → Bool} {l : List Finding}
    (h : ∀ f ∈ l, p f = false) : l.all p = l.isEmpty := by
  cases l with
  | nil => rfl
  | cons x t => simp [List.all_cons, h x (by simp)]
theorem macroStep_all (n a : String) (d : Deprule) :
    (macroStep n a d).2 = (macroStep n a d).1.all cleanFinding := by
  unfold macroStep
  split <;> simp [macroFinding, cleanFinding, failingSeverity, isEpochTag]

theorem macroStep_notOk (n a : String) (d : Deprule) :
    ∀ f ∈ (macroStep n a d).1, notOkSeverity f = true := by
  unfold macroStep
  split <;> simp [macroFinding, notOkSeverity]

theorem macroStep_snd (n a : String) (d : Deprule) :
    (macroStep n a d).2 = ! macroFlagged d := by
  unfold macroStep
  split <;> simp_all

theorem libStep_findings_failing (peers : List RpmPeer) (n a : String)
    (afterDeps : List Deprule) (i k : Nat) (req : Deprule) :
    ∀ f ∈ (libStep peers n a afterDeps i k req).1,
      f.severity = Severity.RESULT_VERIFY := by
  unfold libStep
  split
  · intro f hf
    simp only [List.mem_append] at hf
    rcases hf with hf | hf
    · unfold libMissingFindings at hf
      split at hf
      · simp at hf
      · split at hf
        · simp at hf
        · simp only [List.mem_singleton] at hf
          subst hf
          rfl
    · unfold libMultipleFindings at hf
      split at hf
      · simp only [List.mem_singleton] at hf
        subst hf
        rfl
      · simp at hf
  · simp

theorem libStep_all (peers : List RpmPeer) (n a : String)
    (afterDeps : List Deprule) (i k : Nat) (req : Deprule) :
    (libStep peers n a afterDeps i k req).2
      = (libStep peers n a afterDeps i k req).1.all cleanFinding := by
  have hv := libStep_findings_failing peers n a afterDeps i k req
  have hfalse : ∀ f ∈ (libStep peers n a afterDeps i k req).1, cleanFinding f = false := by
    intro f hf
    simp [cleanFinding, failingSeverity, hv f hf]
  rw [all_eq_isEmpty_of_forall_false hfalse]
  unfold libStep
  split <;> rfl

theorem libStep_notOk (peers : List RpmPeer) (n a : String)
    (afterDeps : List Deprule) (i k : Nat) (req : Deprule) :
    ∀ f ∈ (libStep peers n a afterDeps i k req).1, notOkSeverity f = true := by
  intro f hf
  simp [notOkSeverity, libStep_findings_failing peers n a afterDeps i k req f hf]

theorem epochStep_all (rebase : Bool) (verrel epre n a : String) (d : Deprule) :
    (epochStep rebase verrel epre n a d).2
      = (epochStep rebase verrel epre n a d).1.all cleanFinding := by
  unfold epochStep
  split <;> simp [epochFinding, cleanFinding, failingSeverity, isEpochTag]

theorem epochStep_notOk (rebase : Bool) (verrel epre n a : String) (d : Deprule) :
    ∀ f ∈ (epochStep rebase verrel epre n a d).1, notOkSeverity f = true := by
  unfold epochStep
  split <;> cases rebase <;> simp [epochFinding, notOkSeverity]

theorem classifyAfterStep_all (rebase : Bool) (peers : List RpmPeer) (h : Header)
    (d : Deprule) :
    (classifyAfterStep rebase peers h d).2
      = (classifyAfterStep rebase peers h d).1.all cleanFinding := by
  unfold classifyAfterStep
  cases hpd : d.peer_deprule with
  | none =>
      cases rebase <;>
        simp [rebaseSevWav, cleanFinding, failingSeverity, isEpochTag]
  | some pd =>
      by_cases hm : deprules_match d pd = true
      · simp [hm, cleanFinding, failingSeverity, isEpochTag]
      · rw [Bool.not_eq_true] at hm
        by_cases he : expected_deprule_change rebase d h peers = true
        · simp [hm, he, cleanFinding, failingSeverity, isEpochTag]
        · rw [Bool.not_eq_true] at he
          cases rebase <;>
            simp [hm, he, rebaseSevWav, cleanFinding, failingSeverity, isEpochTag]

theorem classifyAfterStep_notOk (rebase : Bool) (peers : List RpmPeer) (h : Header)
    (d : Deprule) :
    ∀ f ∈ (classifyAfterStep rebase peers h d).1, notOkSeverity f = true := by
  unfold classifyAfterStep
  cases hpd : d.peer_deprule with
  | none => cases rebase <;> simp [rebaseSevWav, notOkSeverity]
  | some pd =>
      by_cases hm : deprules_match d pd = true
      · simp [hm, notOkSeverity]
      · rw [Bool.not_eq_true] at hm
        by_cases he : expected_deprule_change rebase d h peers = true
        · simp [hm, he, notOkSeverity]
        · rw [Bool.not_eq_true] at he
          cases rebase <;> simp [hm, he, rebaseSevWav, notOkSeverity]

theorem classifyBeforeStep_all (rebase : Bool) (h : Header) (d : Deprule) :
    (classifyBeforeStep rebase h d).2
      = (classifyBeforeStep rebase h d).1.all cleanFinding := by
  unfold classifyBeforeStep
  cases d.peer_deprule with
  | some pd => simp
  | none =>
      cases rebase <;>
        simp [rebaseSevWav, cleanFinding, failingSeverity, isEpochTag]

theorem classifyBeforeStep_notOk (rebase : Bool) (h : Header) (d : Deprule) :
    ∀ f ∈ (classifyBeforeStep rebase h d).1, notOkSeverity f = true := by
  unfold classifyBeforeStep
  cases d.peer_deprule with
  | some pd => simp
  | none => cases rebase <;> simp [rebaseSevWav, notOkSeverity]
theorem have_unexpanded_macros_all (n a : String) (deprules : Option (List Deprule)) :
    (have_unexpanded_macros n a deprules).2
      = (have_unexpanded_macros n a deprules).1.all cleanFinding := by
  cases deprules with
  | none => rfl
  | some rules =>
      apply runChecks_all_of
      intro s hs
      rw [List.mem_map] at hs
      obtain ⟨d, _, rfl⟩ := hs
      exact macroStep_all n a d

theorem have_unexpanded_macros_notOk (n a : String) (deprules : Option (List Deprule)) :
    ∀ f ∈ (have_unexpanded_macros n a deprules).1, notOkSeverity f = true := by
  cases deprules with
  | none => simp [have_unexpanded_macros]
  | some rules =>
      apply runChecks_forall
      intro s hs
      rw [List.mem_map] at hs
      obtain ⟨d, _, rfl⟩ := hs
      exact macroStep_notOk n a d

theorem check_explicit_lib_deps_all (peers : List RpmPeer) (i : Nat) (h : Header)
    (afterDeps : List Deprule) :
    (check_explicit_lib_deps peers i h afterDeps).2
      = (check_explicit_lib_deps peers i h afterDeps).1.all cleanFinding := by
  apply runChecks_all_of
  intro s hs
  rw [List.mem_map] at hs
  obtain ⟨k, _, rfl⟩ := hs
  cases hk : afterDeps[k]? with
  | none => simp [hk]
  | some req => simpa [hk] using libStep_all peers h.name h.arch afterDeps i k req

theorem check_explicit_lib_deps_notOk (peers : List RpmPeer) (i : Nat) (h : Header)
    (afterDeps : List Deprule) :
    ∀ f ∈ (check_explicit_lib_deps peers i h afterDeps).1, notOkSeverity f = true := by
  apply runChecks_forall
  intro s hs
  rw [List.mem_map] at hs
  obtain ⟨k, _, rfl⟩ := hs
  cases hk : afterDeps[k]? with
  | none => simp [hk]
  | some req => simpa [hk] using libStep_notOk peers h.name h.arch afterDeps i k req

theorem check_explicit_epoch_all (rebase : Bool) (h : Header)
    (afterdeps : Option (List Deprule)) :
    (check_explicit_epoch rebase h afterdeps).2
      = (check_explicit_epoch rebase h afterdeps).1.all cleanFinding := by
  cases afterdeps with
  | none => rfl
  | some rules =>
      by_cases h1 : rules.isEmpty = true
      · simp [check_explicit_epoch, h1]
      · rw [Bool.not_eq_true] at h1
        by_cases h2 : h.epoch = 0
        · simp [check_explicit_epoch, h1, h2]
        · simp only [check_explicit_epoch, h1, h2, Bool.false_eq_true, if_false]
          apply runChecks_all_of
          intro s hs
          rw [List.mem_map] at hs
          obtain ⟨d, _, rfl⟩ := hs
          exact epochStep_all rebase _ _ h.name h.arch d

theorem check_explicit_epoch_notOk (rebase : Bool) (h : Header)
    (afterdeps : Option (List Deprule)) :
    ∀ f ∈ (check_explicit_epoch rebase h afterdeps).1, notOkSeverity f = true := by
  cases afterdeps with
  | none => simp [check_explicit_epoch]
  | some rules =>
      by_cases h1 : rules.isEmpty = true
      · simp [check_explicit_epoch, h1]
      · rw [Bool.not_eq_true] at h1
        by_cases h2 : h.epoch = 0
        · simp [check_explicit_epoch, h1, h2]
        · simp only [check_explicit_epoch, h1, h2, Bool.false_eq_true, if_false]
          apply runChecks_forall
          intro s hs
          rw [List.mem_map] at hs
          obtain ⟨d, _, rfl⟩ := hs
          exact epochStep_notOk rebase _ _ h.name h.arch d

theorem classifyPeer_all (rebase : Bool) (peers : List RpmPeer) (p : RpmPeer) :
    (classifyPeer rebase peers p).2
      = (classifyPeer rebase peers p).1.all cleanFinding := by
  unfold classifyPeer
  have hA : (runChecks ((effAfterDeps p).map (classifyAfterStep rebase peers p.after_hdr))).2
      = (runChecks ((effAfterDeps p).map (classifyAfterStep rebase peers p.after_hdr))).1.all
        cleanFinding := by
    apply runChecks_all_of
    intro s hs
    rw [List.mem_map] at hs
    obtain ⟨d, _, rfl⟩ := hs
    exact classifyAfterStep_all rebase peers p.after_hdr d
  cases hb : effBeforeDeps p with
  | none => simpa using hA
  | some rules =>
      have hB : (runChecks (rules.map (classifyBeforeStep rebase p.after_hdr))).2
          = (runChecks (rules.map (classifyBeforeStep rebase p.after_hdr))).1.all
            cleanFinding := by
        apply runChecks_all_of
        intro s hs
        rw [List.mem_map] at hs
        obtain ⟨d, _, rfl⟩ := hs
        exact classifyBeforeStep_all rebase p.after_hdr d
      simp [hA, hB, List.all_append]

theorem classifyPeer_notOk (rebase : Bool) (peers : List RpmPeer) (p : RpmPeer) :
    ∀ f ∈ (classifyPeer rebase peers p).1, notOkSeverity f = true := by
  unfold classifyPeer
  intro f hf
  simp only [List.mem_append] at hf
  rcases hf with hf | hf
  · refine runChecks_forall _ _ ?_ f hf
    intro s hs
    rw [List.mem_map] at hs
    obtain ⟨d, _, rfl⟩ := hs
    exact classifyAfterStep_notOk rebase peers p.after_hdr d
  · revert hf
    cases hb : effBeforeDeps p with
    | none => simp
    | some rules =>
        intro hf
        refine runChecks_forall _ _ ?_ f hf
        intro s hs
        rw [List.mem_map] at hs
        obtain ⟨d, _, rfl⟩ := hs
        exact classifyBeforeStep_notOk rebase p.after_hdr d
theorem pass1_all (ri : Rpminspect) :
    (pass1 ri).2 = (pass1 ri).1.all cleanFinding := by
  apply runChecks_all_of
  intro s hs
  rw [List.mem_map] at hs
  obtain ⟨p, _, rfl⟩ := hs
  exact have_unexpanded_macros_all _ _ _

theorem pass1_notOk (ri : Rpminspect) :
    ∀ f ∈ (pass1 ri).1, notOkSeverity f = true := by
  apply runChecks_forall
  intro s hs
  rw [List.mem_map] at hs
  obtain ⟨p, _, rfl⟩ := hs
  exact have_unexpanded_macros_notOk _ _ _

theorem pass2_all (ri : Rpminspect) :
    (pass2 ri).2 = (pass2 ri).1.all cleanFinding := by
  apply runChecks_all_of
  intro s hs
  rw [List.mem_map] at hs
  obtain ⟨i, _, rfl⟩ := hs
  cases hp : ri.peers[i]? with
  | none => simp [hp]
  | some p =>
      simp only [hp]
      rw [List.all_append, check_explicit_lib_deps_all ri.peers i p.after_hdr (effAfterDeps p),
        check_explicit_epoch_all ri.rebase p.after_hdr (some (effAfterDeps p))]

theorem pass2_notOk (ri : Rpminspect) :
    ∀ f ∈ (pass2 ri).1, notOkSeverity f = true := by
  apply runChecks_forall
  intro s hs
  rw [List.mem_map] at hs
  obtain ⟨i, _, rfl⟩ := hs
  cases hp : ri.peers[i]? with
  | none => simp [hp]
  | some p =>
      simp only [hp]
      intro f hf
      rw [List.mem_append] at hf
      rcases hf with hf | hf
      · exact check_explicit_lib_deps_notOk ri.peers i p.after_hdr (effAfterDeps p) f hf
      · exact check_explicit_epoch_notOk ri.rebase p.after_hdr (some (effAfterDeps p)) f hf

theorem pass3_all (ri : Rpminspect) :
    (pass3 ri).2 = (pass3 ri).1.all cleanFinding := by
  unfold pass3
  split
  · apply runChecks_all_of
    intro s hs
    rw [List.mem_map] at hs
    obtain ⟨p, _, rfl⟩ := hs
    exact classifyPeer_all ri.rebase ri.peers p
  · rfl

theorem pass3_notOk (ri : Rpminspect) :
    ∀ f ∈ (pass3 ri).1, notOkSeverity f = true := by
  unfold pass3
  split
  · apply runChecks_forall
    intro s hs
    rw [List.mem_map] at hs
    obtain ⟨p, _, rfl⟩ := hs
    exact classifyPeer_notOk ri.rebase ri.peers p
  · simp

/-- The core of the run (findings and verdict before the closing "ok"
finding). -/
def inspectCore (ri : Rpminspect) : List Finding × Bool :=
  runChecks [pass1 ri, pass2 ri, pass3 ri]

theorem inspect_rpmdeps_findings (ri : Rpminspect) (s0 : Option String) :
    (inspect_rpmdeps ri s0).findings
      = (inspectCore ri).1 ++ (if (inspectCore ri).2 then [okFinding] else []) := rfl

theorem inspect_rpmdeps_verdict (ri : Rpminspect) (s0 : Option String) :
    (inspect_rpmdeps ri s0).verdict = (inspectCore ri).2 := rfl

theorem inspectCore_all (ri : Rpminspect) :
    (inspectCore ri).2 = (inspectCore ri).1.all cleanFinding := by
  apply runChecks_all_of
  intro s hs
  simp only [List.mem_cons, List.mem_singleton, List.not_mem_nil, or_false] at hs
  rcases hs with rfl | rfl | rfl
  · exact pass1_all ri
  · exact pass2_all ri
  · exact pass3_all ri

theorem inspectCore_notOk (ri : Rpminspect) :
    ∀ f ∈ (inspectCore ri).1, notOkSeverity f = true := by
  apply runChecks_forall
  intro s hs
  simp only [List.mem_cons, List.mem_singleton, List.not_mem_nil, or_false] at hs
  rcases hs with rfl | rfl | rfl
  · exact pass1_notOk ri
  · exact pass2_notOk ri
  · exact pass3_notOk ri

theorem inspectCore_fst (ri : Rpminspect) :
    (inspectCore ri).1 = (pass1 ri).1 ++ ((pass2 ri).1 ++ ((pass3 ri).1 ++ [])) := by
  simp [inspectCore, runChecks_fst]

theorem cleanFinding_iff (f : Finding) :
    cleanFinding f = true ↔
      (f.severity ≠ Severity.RESULT_VERIFY ∧ f.severity ≠ Severity.RESULT_BAD)
        ∧ isEpochTag f.tag = false := by
  simp only [cleanFinding, failingSeverity, Bool.not_eq_true', Bool.or_eq_false_iff,
    decide_eq_false_iff_not]

/-- A reference build used as a concrete instance: a rebase build whose
single subpackage has epoch 2 and one after-rule whose version `1.0-1`
matches the subpackage's version-release but lacks the `2:` prefix. -/
def exRebaseEpochBuild : Rpminspect :=
  ⟨[⟨none, ⟨"alpha", "1.0", "1", 2, "x86_64", false, [],
      [⟨DepType.tRequires, "beta", DepOp.opEqual, some "1.0-1", none, []⟩]⟩,
      none, none⟩], false, true, true⟩

/-- C1: the aggregate verdict is true iff every finding is non-failing
(neither advisory-verify nor blocking severity) AND no epoch-prefix finding
of any severity was produced; a passing run emits exactly one closing
finding of ok severity.  (The claim's "iff no advisory/blocking finding" is
amended: rebase-downgraded informational epoch-prefix findings also force a
false verdict.) -/
theorem c1_verdict_characterization (ri : Rpminspect) (s0 : Option String) :
    ((inspect_rpmdeps ri s0).verdict = true ↔
      ∀ f ∈ (inspect_rpmdeps ri s0).findings,
        (f.severity ≠ Severity.RESULT_VERIFY ∧ f.severity ≠ Severity.RESULT_BAD)
          ∧ isEpochTag f.tag = false)
    ∧ ((inspect_rpmdeps ri s0).findings.filter
          (fun f => decide (f.severity = Severity.RESULT_OK))).length
        = if (inspect_rpmdeps ri s0).verdict = true then 1 else 0 := by
  constructor
  · rw [inspect_rpmdeps_findings, inspect_rpmdeps_verdict]
    constructor
    · intro hv f hf
      rw [List.mem_append] at hf
      rcases hf with hf | hf
      · have hall := inspectCore_all ri
        rw [hv] at hall
        exact (cleanFinding_iff f).mp (List.all_eq_true.mp hall.symm f hf)
      · rw [hv, if_pos rfl] at hf
        rw [List.mem_singleton] at hf
        subst hf
        exact ⟨⟨by decide, by decide⟩, by decide⟩
    · intro hcl
      have hc : ∀ f ∈ (inspectCore ri).1, cleanFinding f = true := by
        intro f hf
        exact (cleanFinding_iff f).mpr (hcl f (List.mem_append_left _ hf))
      rw [inspectCore_all ri]
      exact List.all_eq_true.mpr hc
  · rw [inspect_rpmdeps_findings, inspect_rpmdeps_verdict, List.filter_append]
    have hnil : ((inspectCore ri).1.filter
        (fun f => decide (f.severity = Severity.RESULT_OK))) = [] := by
      rw [List.filter_eq_nil_iff]
      intro f hf
      have hn := inspectCore_notOk ri f hf
      simp only [notOkSeverity, Bool.not_eq_true', decide_eq_false_iff_not] at hn
      simp [hn]
    rw [hnil]
    cases hv : (inspectCore ri).2 <;> simp [okFinding]

/-- C1 counterexample: a rebase build whose only finding is an informational
(downgraded) epoch-prefix finding returns a false verdict even though no
advisory-verify or blocking finding was produced — the claim's iff fails at
this input. -/
theorem c1_counterexample :
    (inspect_rpmdeps exRebaseEpochBuild none).verdict = false
    ∧ (∀ f ∈ (inspect_rpmdeps exRebaseEpochBuild none).findings,
        f.severity ≠ Severity.RESULT_VERIFY ∧ f.severity ≠ Severity.RESULT_BAD)
    ∧ (inspect_rpmdeps exRebaseEpochBuild none).findings ≠ [] := by
  decide
/-- Drop everything in `hay` up to and including the first occurrence of
`need`; `none` when `need` does not occur. -/
def dropThroughFirst (hay need : List Char) : Option (List Char) :=
  match hay with
  | [] => if need.isEmpty then some [] else none
  | a :: t => if need.isPrefixOf (a :: t) then some ((a :: t).drop need.length)
              else dropThroughFirst t need

/-- Modelled from the spec's words (for comparison with the source-derived
`macroFlagged`): a version contains an unresolved placeholder when the open
marker is followed anywhere LATER in the string by a close marker. -/
def orderedPlaceholder (v : String) : Bool :=
  match dropThroughFirst v.data "%\x7b".data with
  | none => false
  | some rest => hasInfix rest "\x7d".data

theorem all_map_general {α β : Type} (f : α → β) (l : List α) (p : β → Bool) :
    (l.map f).all p = l.all (fun a => p (f a)) := by
  induction l with
  | nil => rfl
  | cons a t ih => simp [List.all_cons, ih]

theorem have_unexpanded_macros_snd (n a : String) (rules : List Deprule) :
    (have_unexpanded_macros n a (some rules)).2
      = rules.all (fun d => ! macroFlagged d) := by
  unfold have_unexpanded_macros
  rw [runChecks_snd, all_map_general]
  rw [show (fun d => (macroStep n a d).2) = fun d => ! macroFlagged d
    from funext (macroStep_snd n a)]

theorem pass1_success_iff (ri : Rpminspect) :
    (pass1 ri).2 = true ↔
      ∀ p ∈ ri.peers, ∀ d ∈ effAfterDeps p, macroFlagged d = false := by
  unfold pass1
  rw [runChecks_snd, all_map_general]
  rw [show (fun p : RpmPeer =>
      (have_unexpanded_macros p.after_hdr.name p.after_hdr.arch (some (effAfterDeps p))).2)
    = fun p : RpmPeer => (effAfterDeps p).all (fun d => ! macroFlagged d)
    from funext (fun p => have_unexpanded_macros_snd p.after_hdr.name p.after_hdr.arch
      (effAfterDeps p))]
  simp [List.all_eq_true, Bool.not_eq_true']

/-- A reference build whose single after-rule's version is `}a%{b`: the
close marker occurs only BEFORE the open marker. -/
def exStrayBraceBuild : Rpminspect :=
  ⟨[⟨none, ⟨"gamma", "1.0", "1", 0, "x86_64", false, [],
      [⟨DepType.tRequires, "delta", DepOp.opEqual, some "\x7da%\x7bb", none, []⟩]⟩,
      none, none⟩], false, true, false⟩

/-- C3 (amended): the Placeholder Scanner flags exactly those rules whose
version contains `%` + open brace anywhere AND a close brace anywhere — in
either order, not necessarily open-then-close; each flagged rule yields a
blocking, anyone-waivable finding, and pass 1 succeeds iff no after-rule of
any subpackage is flagged. -/
theorem c3_scanner_characterization :
    (∀ d : Deprule, macroFlagged d = true ↔
       ∃ v, d.version = some v
         ∧ ("%\x7b".data <:+: v.data) ∧ ("\x7d".data <:+: v.data))
    ∧ (∀ (n a : String) (d : Deprule), macroFlagged d = true →
        macroStep n a d = ([macroFinding n a d], false)
        ∧ (macroFinding n a d).severity = Severity.RESULT_BAD
        ∧ (macroFinding n a d).waiverauth = Waiver.WAIVABLE_BY_ANYONE)
    ∧ (∀ ri : Rpminspect, (pass1 ri).2 = true ↔
        ∀ p ∈ ri.peers, ∀ d ∈ effAfterDeps p, macroFlagged d = false) := by
  refine ⟨?_, ?_, pass1_success_iff⟩
  · intro d
    unfold macroFlagged
    cases hv : d.version with
    | none => simp
    | some v => simp [strHas_iff]
  · intro n a d hflag
    refine ⟨?_, rfl, rfl⟩
    unfold macroStep
    rw [if_pos hflag]

/-- C3 counterexample: the version `}a%{b` has its only close marker before
the open marker — by the claim it must not be flagged — yet the scanner
flags it and the run emits a blocking macro finding and fails. -/
theorem c3_counterexample :
    macroFlagged ⟨DepType.tRequires, "delta", DepOp.opEqual, some "\x7da%\x7bb", none, []⟩
        = true
    ∧ orderedPlaceholder "\x7da%\x7bb" = false
    ∧ (inspect_rpmdeps exStrayBraceBuild none).findings.any
        (fun f => isMacroTag f.tag && decide (f.severity = Severity.RESULT_BAD)) = true
    ∧ (inspect_rpmdeps exStrayBraceBuild none).verdict = false := by
  decide
theorem strPre_false_iff (s p : String) : strPre s p = false ↔ ¬ (p.data <+: s.data) := by
  rw [← strPre_iff]
  simp

theorem epochFlagged_iff (verrel epre : String) (d : Deprule) :
    epochFlagged verrel epre d = true ↔
      ∃ v, d.version = some v ∧ (verrel.data <:+ v.data) ∧ ¬ (epre.data <+: v.data) := by
  unfold epochFlagged
  cases hv : d.version with
  | none => simp
  | some v => simp [strSuf_iff, ← strPre_iff]

theorem check_explicit_epoch_mem (rebase : Bool) (h : Header) (rules : List Deprule)
    (h1 : rules.isEmpty = false) (h2 : ¬ h.epoch = 0) (f : Finding) :
    f ∈ (check_explicit_epoch rebase h (some rules)).1 ↔
      ∃ d ∈ rules,
        epochFlagged (h.version ++ "-" ++ h.release) (toString h.epoch ++ ":") d = true
        ∧ f = epochFinding rebase h.name h.arch d := by
  simp only [check_explicit_epoch, h1, Bool.false_eq_true, if_false, h2]
  rw [runChecks_fst]
  constructor
  · intro hf
    rw [List.mem_flatMap] at hf
    obtain ⟨s, hs, hfs⟩ := hf
    rw [List.mem_map] at hs
    obtain ⟨d, hd, rfl⟩ := hs
    unfold epochStep at hfs
    by_cases hflag : epochFlagged (h.version ++ "-" ++ h.release)
        (toString h.epoch ++ ":") d = true
    · rw [if_pos hflag] at hfs
      rw [List.mem_singleton] at hfs
      exact ⟨d, hd, hflag, hfs⟩
    · rw [if_neg hflag] at hfs
      simp at hfs
  · rintro ⟨d, hd, hflag, rfl⟩
    rw [List.mem_flatMap]
    refine ⟨epochStep rebase (h.version ++ "-" ++ h.release) (toString h.epoch ++ ":")
      h.name h.arch d, List.mem_map_of_mem _ hd, ?_⟩
    unfold epochStep
    rw [if_pos hflag]
    simp

/-- A single after-rule whose version `1.0-1` equals its subpackage's
version-release without the `2:` epoch prefix. -/
def ruleEps : Deprule := ⟨DepType.tRequires, "zeta", DepOp.opEqual, some "1.0-1", none, []⟩

/-- A header with epoch 2 and version-release `1.0-1`. -/
def hdrEps : Header := ⟨"eps", "1.0", "1", 2, "x86_64", false, [], [ruleEps]⟩

/-- C5: the Epoch-Prefix Verifier emits findings only for subpackages with
epoch > 0 and a non-empty after-rule set; it flags exactly the rules whose
present version ends with the subpackage's version-release and does not
begin with its epoch prefix; findings are informational/non-waivable on a
rebase and blocking/anyone-waivable otherwise. -/
theorem c5_epoch_verifier (rebase : Bool) (h : Header) (rules : List Deprule) :
    ((check_explicit_epoch rebase h (some rules)).1 ≠ [] → 0 < h.epoch ∧ rules ≠ [])
    ∧ (∀ f, f ∈ (check_explicit_epoch rebase h (some rules)).1 ↔
        0 < h.epoch ∧ ∃ d ∈ rules, ∃ v, d.version = some v
          ∧ ((h.version ++ "-" ++ h.release).data <:+ v.data)
          ∧ ¬ ((toString h.epoch ++ ":").data <+: v.data)
          ∧ f = epochFinding rebase h.name h.arch d)
    ∧ (∀ f ∈ (check_explicit_epoch rebase h (some rules)).1,
        f.severity = (if rebase then Severity.RESULT_INFO else Severity.RESULT_BAD)
        ∧ f.waiverauth
            = (if rebase then Waiver.NOT_WAIVABLE else Waiver.WAIVABLE_BY_ANYONE)) := by
  by_cases h1 : rules.isEmpty = true
  · have hempty : (check_explicit_epoch rebase h (some rules)).1 = [] := by
      simp [check_explicit_epoch, h1]
    rw [List.isEmpty_iff] at h1
    refine ⟨fun hne => absurd hempty hne, ?_, ?_⟩
    · intro f
      rw [hempty]
      simp [h1]
    · intro f hf
      rw [hempty] at hf
      simp at hf
  · rw [Bool.not_eq_true] at h1
    by_cases h2 : h.epoch = 0
    · have hempty : (check_explicit_epoch rebase h (some rules)).1 = [] := by
        simp [check_explicit_epoch, h1, h2]
      refine ⟨fun hne => absurd hempty hne, ?_, ?_⟩
      · intro f
        rw [hempty]
        simp [h2]
      · intro f hf
        rw [hempty] at hf
        simp at hf
    · refine ⟨fun _ => ⟨Nat.pos_of_ne_zero h2, by simpa [List.isEmpty_iff] using h1⟩, ?_, ?_⟩
      · intro f
        rw [check_explicit_epoch_mem rebase h rules h1 h2 f]
        constructor
        · rintro ⟨d, hd, hflag, rfl⟩
          obtain ⟨v, hv, hsuf, hpre⟩ := (epochFlagged_iff _ _ d).mp hflag
          exact ⟨Nat.pos_of_ne_zero h2, d, hd, v, hv, hsuf, hpre, rfl⟩
        · rintro ⟨_, d, hd, v, hv, hsuf, hpre, rfl⟩
          exact ⟨d, hd, (epochFlagged_iff _ _ d).mpr ⟨v, hv, hsuf, hpre⟩, rfl⟩
      · intro f hf
        rw [check_explicit_epoch_mem rebase h rules h1 h2 f] at hf
        obtain ⟨d, _, _, rfl⟩ := hf
        cases rebase <;> exact ⟨rfl, rfl⟩

/-- C5 witness: at a concrete non-rebase subpackage with epoch 2 the
verifier emits the blocking epoch finding for the unprefixed rule. -/
theorem c5_witness :
    epochFinding false "eps" "x86_64" ruleEps
      ∈ (check_explicit_epoch false hdrEps (some [ruleEps])).1 :=
  ((c5_epoch_verifier false hdrEps [ruleEps]).2.1 _).mpr
    ⟨by decide, ruleEps, by decide, "1.0-1", by decide, by decide, by decide, by decide⟩
/-- C8: verification output is a pure, deterministic function of the Build
input: the findings and verdict of a run do not depend on the incoming
process-wide spec-file variable, so sequential runs in one process — where
that variable persists — still produce the run's canonical findings and
verdict for each Build. -/
theorem c8_pure_deterministic (r1 r2 : Rpminspect) (s s2 : Option String) :
    (inspect_rpmdeps r1 s).findings = (inspect_rpmdeps r1 s2).findings
    ∧ (inspect_rpmdeps r1 s).verdict = (inspect_rpmdeps r1 s2).verdict
    ∧ (inspect_rpmdeps r2 ((inspect_rpmdeps r1 s).specfileOut)).findings
        = (inspect_rpmdeps r2 s).findings
    ∧ (inspect_rpmdeps r2 ((inspect_rpmdeps r1 s).specfileOut)).verdict
        = (inspect_rpmdeps r2 s).verdict :=
  ⟨rfl, rfl, rfl, rfl⟩

theorem explicitCandidate_iff (pn : String) (v : Deprule) :
    explicitCandidate pn v = true ↔
      v.type = DepType.tRequires ∧ ¬ (strPre v.requirement sharedLibPre = true)
        ∧ v.requirement = pn ∧ v.operator = DepOp.opEqual := by
  simp [explicitCandidate]

theorem verifyAbsentRead_spec (pn tok : String) (l : List Deprule)
    (h : verifyAbsentRead pn tok l = true) :
    ∃ v ∈ l, explicitCandidate pn v = true ∧ v.version = none := by
  induction l with
  | nil => simp [verifyAbsentRead] at h
  | cons v rest ih =>
      unfold verifyAbsentRead at h
      by_cases hc : explicitCandidate pn v = true
      · rw [if_pos hc] at h
        cases hv : v.version with
        | none => exact ⟨v, List.mem_cons_self v rest, hc, hv⟩
        | some t =>
            rw [hv] at h
            dsimp only at h
            by_cases ht : t = tok
            · rw [if_pos ht] at h
              exact absurd h (by simp)
            · rw [if_neg ht] at h
              obtain ⟨w, hw, hcw, hvw⟩ := ih h
              exact ⟨w, List.mem_cons_of_mem v hw, hcw, hvw⟩
      · rw [if_neg hc] at h
        obtain ⟨w, hw, hcw, hvw⟩ := ih h
        exact ⟨w, List.mem_cons_of_mem v hw, hcw, hvw⟩

theorem oracleAbsentRead_spec (rebase : Bool) (d : Deprule) (h : Header)
    (peers : List RpmPeer) (hr : oracleAbsentRead rebase d h peers = true) :
    d.operator = DepOp.opEqual ∧ d.version = none := by
  unfold oracleAbsentRead at hr
  by_cases hs : (h.isSource = true) ∨ (rebase = true)
  · rw [if_pos hs] at hr
    exact absurd hr (by simp)
  · rw [if_neg hs] at hr
    simp only [decide_eq_true_eq] at hr
    exact ⟨hr.2.1, hr.2.2⟩

/-- C10: whenever every non-library exact-equality Requires rule and every
changed exact-equality rule carries a present version, no comparison in the
verify scan of the Explicit-Library-Requirement Verifier nor in the
Expected-Change Oracle reads an absent version (the code leaves both reads
unguarded). -/
theorem c10_absent_version_unreachable (ri : Rpminspect)
    (h1 : ∀ p ∈ ri.peers, ∀ v ∈ effAfterDeps p,
      v.type = DepType.tRequires → strPre v.requirement sharedLibPre = false →
      v.operator = DepOp.opEqual → v.version ≠ none)
    (h2 : ∀ p ∈ ri.peers, ∀ d ∈ effAfterDeps p, ∀ pd, d.peer_deprule = some pd →
      deprules_match d pd = false → d.operator = DepOp.opEqual → d.version ≠ none) :
    runAbsentReads ri = false := by
  unfold runAbsentReads
  rw [Bool.or_eq_false_iff]
  constructor
  · by_contra hA
    rw [Bool.not_eq_false, List.any_eq_true] at hA
    obtain ⟨i, _, hbody⟩ := hA
    revert hbody
    cases hp : ri.peers[i]? with
    | none => simp
    | some p =>
        simp only [List.any_eq_true]
        rintro ⟨k, _, hk⟩
        revert hk
        cases hreq : (effAfterDeps p)[k]? with
        | none => simp
        | some req =>
            simp only []
            by_cases hlib : libReqRule req = true
            · rw [if_pos hlib]
              cases hscan : (scanProviders i k req.requirement 0 ri.peers).2 with
              | none => simp
              | some prov =>
                  intro hread
                  obtain ⟨v, hv, hcand, hvnone⟩ :=
                    verifyAbsentRead_spec _ _ _ hread
                  obtain ⟨ht, hnl, _, hop⟩ := (explicitCandidate_iff _ v).mp hcand
                  have hnl2 : strPre v.requirement sharedLibPre = false :=
                    Bool.not_eq_true _ ▸ (by simpa using hnl)
                  exact h1 p (List.getElem?_mem hp) v hv ht hnl2 hop hvnone
            · rw [if_neg hlib]
              simp
  · by_contra hB
    rw [Bool.not_eq_false] at hB
    simp only [Bool.and_eq_true, List.any_eq_true] at hB
    obtain ⟨_, p, hp, d, hd, hbody⟩ := hB
    revert hbody
    cases hpd : d.peer_deprule with
    | none => simp
    | some pd =>
        simp only []
        by_cases hm : deprules_match d pd = true
        · rw [if_pos hm]
          simp
        · rw [if_neg hm, Bool.not_eq_true] at *
          intro hread
          obtain ⟨hop, hvnone⟩ := oracleAbsentRead_spec _ _ _ _ hread
          exact h2 p hp d hd pd hpd (Bool.not_eq_true _ ▸ hm) hop hvnone

/-- C10 witness: at a concrete build satisfying both preconditions, no
absent-version read occurs. -/
theorem c10_witness : runAbsentReads exStrayBraceBuild = false :=
  c10_absent_version_unreachable exStrayBraceBuild (by decide) (by decide)
/-- C3 witness: the scanner step at a concrete flagged rule emits exactly
the blocking macro finding. -/
theorem c3_witness :
    macroStep "gamma" "x86_64"
        ⟨DepType.tRequires, "delta", DepOp.opEqual, some "\x7da%\x7bb", none, []⟩
      = ([macroFinding "gamma" "x86_64"
          ⟨DepType.tRequires, "delta", DepOp.opEqual, some "\x7da%\x7bb", none, []⟩], false) :=
  (c3_scanner_characterization.2.1 "gamma" "x86_64"
    ⟨DepType.tRequires, "delta", DepOp.opEqual, some "\x7da%\x7bb", none, []⟩ (by decide)).1
theorem scanStep_cases (sp : Bool) (ri : Nat) (rn pn : String) (rules : List Deprule)
    (m : Nat) (acc : List String × Bool) :
    scanStep sp ri rn pn rules m acc = acc
    ∨ ∃ prov, rules[m]? = some prov ∧ prov.type = DepType.tProvides
        ∧ strPre prov.requirement sharedLibPre = true
        ∧ provMatches rn prov.requirement = true
        ∧ scanStep sp ri rn pn rules m acc = (pn :: acc.1, true) := by
  unfold scanStep
  cases hm : rules[m]? with
  | none => exact Or.inl rfl
  | some prov =>
      dsimp only
      by_cases hself : (sp = true) ∧ m = ri
      · rw [if_pos hself]
        exact Or.inl rfl
      · rw [if_neg hself]
        by_cases hty : prov.type = DepType.tProvides ∧ strPre prov.requirement sharedLibPre = true
        · rw [if_pos hty]
          by_cases hmatch : provMatches rn prov.requirement = true
          · rw [if_pos hmatch]
            exact Or.inr ⟨prov, rfl, hty.1, hty.2, hmatch, rfl⟩
          · rw [if_neg hmatch]
            exact Or.inl rfl
        · rw [if_neg hty]
          exact Or.inl rfl

theorem scanFold_names (sp : Bool) (ri : Nat) (rn pn : String) (rules : List Deprule)
    (l : List Nat) :
    ∀ n ∈ (l.foldr (scanStep sp ri rn pn rules) ([], false)).1,
      n = pn ∧ ∃ prov ∈ rules, prov.type = DepType.tProvides
        ∧ strPre prov.requirement sharedLibPre = true
        ∧ provMatches rn prov.requirement = true := by
  induction l with
  | nil => simp
  | cons m t ih =>
      rw [List.foldr_cons]
      rcases scanStep_cases sp ri rn pn rules m
          (t.foldr (scanStep sp ri rn pn rules) ([], false)) with heq |
          ⟨prov, hg, h1, h2, h3, heq⟩
      · rw [heq]
        exact ih
      · rw [heq]
        intro n hn
        rcases List.mem_cons.mp hn with rfl | hn
        · exact ⟨rfl, prov, List.getElem?_mem hg, h1, h2, h3⟩
        · exact ih n hn

theorem scanFold_not_found (sp : Bool) (ri : Nat) (rn pn : String) (rules : List Deprule)
    (l : List Nat) (h : (l.foldr (scanStep sp ri rn pn rules) ([], false)).2 = false) :
    (l.foldr (scanStep sp ri rn pn rules) ([], false)).1 = [] := by
  induction l with
  | nil => rfl
  | cons m t ih =>
      rw [List.foldr_cons] at h ⊢
      rcases scanStep_cases sp ri rn pn rules m
          (t.foldr (scanStep sp ri rn pn rules) ([], false)) with heq |
          ⟨_, _, _, _, _, heq⟩
      · rw [heq] at h ⊢
        exact ih h
      · rw [heq] at h
        exact absurd h (by simp)

theorem scanPeerProvides_names (sp : Bool) (ri : Nat) (rn pn : String)
    (rules : List Deprule) :
    ∀ n ∈ (scanPeerProvides sp ri rn pn rules).1,
      n = pn ∧ ∃ prov ∈ rules, prov.type = DepType.tProvides
        ∧ strPre prov.requirement sharedLibPre = true
        ∧ provMatches rn prov.requirement = true :=
  scanFold_names sp ri rn pn rules (List.range rules.length)

theorem scanPeerProvides_not_found (sp : Bool) (ri : Nat) (rn pn : String)
    (rules : List Deprule) (h : (scanPeerProvides sp ri rn pn rules).2 = false) :
    (scanPeerProvides sp ri rn pn rules).1 = [] :=
  scanFold_not_found sp ri rn pn rules (List.range rules.length) h

theorem scanProviders_spec (selfIdx reqIdx : Nat) (reqName : String) :
    ∀ (peers : List RpmPeer) (j : Nat),
      (∀ p, (scanProviders selfIdx reqIdx reqName j peers).2 = some p →
        p ∈ peers ∧ ∀ n ∈ (scanProviders selfIdx reqIdx reqName j peers).1,
          n = p.after_hdr.name ∧ ∃ prov ∈ effAfterDeps p,
            prov.type = DepType.tProvides
            ∧ strPre prov.requirement sharedLibPre = true
            ∧ provMatches reqName prov.requirement = true)
      ∧ ((scanProviders selfIdx reqIdx reqName j peers).2 = none →
          (scanProviders selfIdx reqIdx reqName j peers).1 = []) := by
  intro peers
  induction peers with
  | nil =>
      intro j
      constructor
      · intro p hp
        simp [scanProviders] at hp
      · intro _
        rfl
  | cons q rest ih =>
      intro j
      unfold scanProviders
      by_cases hemp : (effAfterDeps q).isEmpty = true
      · rw [if_pos hemp]
        refine ⟨?_, (ih (j + 1)).2⟩
        intro p hp
        obtain ⟨hmem, hrest⟩ := (ih (j + 1)).1 p hp
        exact ⟨List.mem_cons_of_mem q hmem, hrest⟩
      · rw [if_neg hemp]
        by_cases hs : (scanPeerProvides (decide (j = selfIdx)) reqIdx reqName
            q.after_hdr.name (effAfterDeps q)).2 = true
        · rw [if_pos hs]
          constructor
          · intro p hp
            simp only [Option.some_inj] at hp
            subst hp
            refine ⟨List.mem_cons_self q rest, ?_⟩
            intro n hn
            exact scanPeerProvides_names _ _ _ _ _ n hn
          · intro hnone
            simp at hnone
        · rw [if_neg hs]
          refine ⟨?_, (ih (j + 1)).2⟩
          intro p hp
          obtain ⟨hmem, hrest⟩ := (ih (j + 1)).1 p hp
          exact ⟨List.mem_cons_of_mem q hmem, hrest⟩
theorem libReqRule_iff (req : Deprule) :
    libReqRule req = true ↔
      req.type = DepType.tRequires ∧ strPre req.requirement sharedLibPre = true := by
  simp [libReqRule]

theorem libMissingFindings_notMulti (peers : List RpmPeer) (n a : String)
    (afterDeps : List Deprule) (i k : Nat) (req : Deprule) :
    ∀ f ∈ libMissingFindings peers n a afterDeps i k req, isMultiTag f.tag = false := by
  unfold libMissingFindings
  split
  · simp
  · split
    · simp
    · intro f hf
      rw [List.mem_singleton] at hf
      subst hf
      rfl

/-- A shared-library Requires rule on `libfoo.so.1`. -/
def reqLibFoo : Deprule := ⟨DepType.tRequires, "libfoo.so.1", DepOp.opNone, none, none, []⟩

/-- A Provides rule for `libfoo.so.1`. -/
def provLibFoo : Deprule := ⟨DepType.tProvides, "libfoo.so.1", DepOp.opNone, none, none, []⟩

def hdrReqA : Header := ⟨"A", "1.0", "1", 0, "x86_64", false, [], [reqLibFoo]⟩

def hdrProvB1 : Header := ⟨"B1", "2.0", "1", 0, "x86_64", false, [], [provLibFoo]⟩

def hdrProvB2 : Header := ⟨"B2", "2.0", "1", 0, "x86_64", false, [], [provLibFoo]⟩

def hdrProvTwice : Header :=
  ⟨"B", "2.0", "1", 0, "x86_64", false, [], [provLibFoo, provLibFoo]⟩

/-- Two DISTINCT subpackages (`B1`, `B2`) each provide `libfoo.so.1`;
subpackage `A` requires it. -/
def exTwoProvidersBuild : Rpminspect :=
  ⟨[⟨none, hdrReqA, none, none⟩, ⟨none, hdrProvB1, none, none⟩,
    ⟨none, hdrProvB2, none, none⟩], false, true, false⟩

/-- One subpackage `B` provides `libfoo.so.1` twice; `A` requires it. -/
def exDoubleProvidesBuild : Rpminspect :=
  ⟨[⟨none, hdrReqA, none, none⟩, ⟨none, hdrProvTwice, none, none⟩], false, true, false⟩

/-- C2 (amended): the provider scan is first-match-wins across subpackages —
every name accumulated into a rule's providers set during one scan names the
single first providing subpackage; when no provider is found nothing is
accumulated; and (for a rule with an initially empty providers list) a
multiple-providers finding is emitted iff that first providing subpackage
matched with more than one Provides rule, so its name is listed more than
once.  Two distinct subpackages providing the same subject do NOT both end
up in the set. -/
theorem c2_first_provider_wins :
    (∀ (peers : List RpmPeer) (selfIdx reqIdx j : Nat) (reqName : String) (p : RpmPeer),
      (scanProviders selfIdx reqIdx reqName j peers).2 = some p →
        ∀ n ∈ (scanProviders selfIdx reqIdx reqName j peers).1, n = p.after_hdr.name)
    ∧ (∀ (peers : List RpmPeer) (selfIdx reqIdx j : Nat) (reqName : String),
        (scanProviders selfIdx reqIdx reqName j peers).2 = none →
          (scanProviders selfIdx reqIdx reqName j peers).1 = [])
    ∧ (∀ (peers : List RpmPeer) (n a : String) (afterDeps : List Deprule) (i k : Nat)
        (req : Deprule), libReqRule req = true → req.providers = [] →
        ((libStep peers n a afterDeps i k req).1.any (fun f => isMultiTag f.tag) = true ↔
          1 < (scanProviders i k req.requirement 0 peers).1.length)) := by
  refine ⟨?_, ?_, ?_⟩
  · intro peers selfIdx reqIdx j reqName p hp n hn
    exact (((scanProviders_spec selfIdx reqIdx reqName peers j).1 p hp).2 n hn).1
  · intro peers selfIdx reqIdx j reqName hnone
    exact (scanProviders_spec selfIdx reqIdx reqName peers j).2 hnone
  · intro peers n a afterDeps i k req hlib hprov
    unfold libStep
    rw [if_pos hlib]
    rw [List.any_append]
    have hmiss : (libMissingFindings peers n a afterDeps i k req).any
        (fun f => isMultiTag f.tag) = false := by
      rw [List.any_eq_false]
      intro f hf
      simp [libMissingFindings_notMulti peers n a afterDeps i k req f hf]
    rw [hmiss, Bool.false_or]
    unfold libMultipleFindings
    rw [hprov]
    by_cases hlen : 1 < (scanProviders i k req.requirement 0 peers).1.length
    · rw [if_pos (by simpa using hlen)]
      simp [multipleFinding, isMultiTag, hlen]
    · rw [if_neg (by simpa using hlen)]
      simp [hlen]

/-- C2 counterexample: in `exTwoProvidersBuild`, where two distinct
subpackages both provide the required `libfoo.so.1`, the requiring rule's
providers set ends up holding exactly one name (`B1`) and the run emits no
multiple-providers finding. -/
theorem c2_counterexample :
    ((updatedAfterDeps exTwoProvidersBuild 0).map Deprule.providers = [["B1"]])
    ∧ (inspect_rpmdeps exTwoProvidersBuild none).findings.all
        (fun f => ! isMultiTag f.tag) = true := by
  decide

/-- C2 witness: with one subpackage providing the subject twice, the
multiple-providers finding does fire. -/
theorem c2_witness :
    (libStep exDoubleProvidesBuild.peers "A" "x86_64" [reqLibFoo] 0 0 reqLibFoo).1.any
        (fun f => isMultiTag f.tag) = true :=
  (c2_first_provider_wins.2.2 exDoubleProvidesBuild.peers "A" "x86_64" [reqLibFoo] 0 0
    reqLibFoo (by decide) (by decide)).mpr (by decide)
/-- C9: the run's only mutation is appending provider names to a rule's
providers list; every other rule field and the peer link are preserved,
names are appended only to shared-library-prefixed Requires rules, and every
appended name is the name of a subpackage whose after-rules contain a
Provides rule matching the subject exactly or after architecture-qualifier
stripping. -/
theorem c9_providers_only_mutation (ri : Rpminspect) (i : Nat) (p : RpmPeer)
    (hp : ri.peers[i]? = some p) :
    (updatedAfterDeps ri i
        = (effAfterDeps p).mapIdx (fun k req => updatedRule ri.peers i k req))
    ∧ (∀ (k : Nat) (req : Deprule),
        (updatedRule ri.peers i k req).type = req.type
        ∧ (updatedRule ri.peers i k req).requirement = req.requirement
        ∧ (updatedRule ri.peers i k req).operator = req.operator
        ∧ (updatedRule ri.peers i k req).version = req.version
        ∧ (updatedRule ri.peers i k req).peer_deprule = req.peer_deprule
        ∧ (updatedRule ri.peers i k req).providers
            = req.providers ++ providersAdded ri.peers i k req)
    ∧ (∀ (k : Nat) (req : Deprule), providersAdded ri.peers i k req ≠ [] →
        req.type = DepType.tRequires ∧ strPre req.requirement sharedLibPre = true)
    ∧ (∀ (k : Nat) (req : Deprule), ∀ n ∈ providersAdded ri.peers i k req,
        ∃ q ∈ ri.peers, n = q.after_hdr.name ∧ ∃ prov ∈ effAfterDeps q,
          prov.type = DepType.tProvides
          ∧ (prov.requirement = req.requirement
             ∨ trimIsa prov.requirement = trimIsa req.requirement)) := by
  refine ⟨by simp [updatedAfterDeps, hp], ?_, ?_, ?_⟩
  · intro k req
    exact ⟨rfl, rfl, rfl, rfl, rfl, rfl⟩
  · intro k req hne
    by_cases hlib : libReqRule req = true
    · exact (libReqRule_iff req).mp hlib
    · exact absurd (by simp [providersAdded, hlib]) hne
  · intro k req n hn
    by_cases hlib : libReqRule req = true
    · rw [providersAdded, if_pos hlib] at hn
      cases hscan : (scanProviders i k req.requirement 0 ri.peers).2 with
      | none =>
          rw [(scanProviders_spec i k req.requirement ri.peers 0).2 hscan] at hn
          simp at hn
      | some pp =>
          obtain ⟨hmem, hall⟩ := (scanProviders_spec i k req.requirement ri.peers 0).1 pp hscan
          obtain ⟨hname, prov, hprovmem, hty, _, hmatch⟩ := hall n hn
          refine ⟨pp, hmem, hname, prov, hprovmem, hty, ?_⟩
          rcases (provMatches_iff req.requirement prov.requirement).mp hmatch with h | h
          · exact Or.inl h.symm
          · exact Or.inr h.symm
    · rw [providersAdded, if_neg hlib] at hn
      simp at hn

/-- C9 witness: at a concrete build the updated rule list of the first peer
is exactly the per-index providers update. -/
theorem c9_witness :
    updatedAfterDeps exTwoProvidersBuild 0
      = (effAfterDeps ⟨none, hdrReqA, none, none⟩).mapIdx
          (fun k req => updatedRule exTwoProvidersBuild.peers 0 k req) :=
  (c9_providers_only_mutation exTwoProvidersBuild 0 ⟨none, hdrReqA, none, none⟩ (by decide)).1
theorem hasExplicitReq_iff (afterDeps : List Deprule) (pn tok : String) :
    hasExplicitReq afterDeps pn tok = true ↔
      ∃ v ∈ afterDeps, v.type = DepType.tRequires
        ∧ ¬ (strPre v.requirement sharedLibPre = true)
        ∧ v.requirement = pn ∧ v.operator = DepOp.opEqual ∧ v.version = some tok := by
  unfold hasExplicitReq
  rw [List.any_eq_true]
  constructor
  · rintro ⟨v, hv, hprop⟩
    simp only [decide_eq_true_eq] at hprop
    obtain ⟨hcand, hver⟩ := hprop
    obtain ⟨h1, h2, h3, h4⟩ := (explicitCandidate_iff pn v).mp hcand
    exact ⟨v, hv, h1, h2, h3, h4, hver⟩
  · rintro ⟨v, hv, h1, h2, h3, h4, hver⟩
    refine ⟨v, hv, ?_⟩
    simp only [decide_eq_true_eq]
    exact ⟨(explicitCandidate_iff pn v).mpr ⟨h1, h2, h3, h4⟩, hver⟩

theorem expectedToken_eq_ite (h : Header) :
    expectedToken h
      = (if h.epoch = 0 then h.version ++ "-" ++ h.release
         else toString h.epoch ++ ":" ++ h.version ++ "-" ++ h.release) := by
  unfold expectedToken
  by_cases h0 : h.epoch = 0
  · rw [if_pos h0, if_neg (by omega)]
  · rw [if_neg h0, if_pos (Nat.pos_of_ne_zero h0)]

/-- C4: whenever the Explicit-Library-Requirement Verifier finds a candidate
provider subpackage for a shared-library Requires rule, it emits the
missing-explicit-requirement finding (advisory-verify severity) iff the
checking subpackage's after-rules contain no non-library Requires on the
provider's name with exact-equality operator and version equal to the
provider's version-release (epoch 0) or epoch:version-release token; and any
advisory-verify finding makes the overall verdict false. -/
theorem c4_missing_explicit_requirement :
    (∀ (peers : List RpmPeer) (n a : String) (afterDeps : List Deprule) (i k : Nat)
        (req : Deprule) (p : RpmPeer),
      libReqRule req = true →
      (scanProviders i k req.requirement 0 peers).2 = some p →
      ((missingReqFinding n a req p.after_hdr ∈ (libStep peers n a afterDeps i k req).1 ↔
        ¬ ∃ v ∈ afterDeps, v.type = DepType.tRequires
          ∧ ¬ (strPre v.requirement sharedLibPre = true)
          ∧ v.requirement = p.after_hdr.name ∧ v.operator = DepOp.opEqual
          ∧ v.version = some (if p.after_hdr.epoch = 0
              then p.after_hdr.version ++ "-" ++ p.after_hdr.release
              else toString p.after_hdr.epoch ++ ":" ++ p.after_hdr.version ++ "-"
                ++ p.after_hdr.release))
      ∧ (missingReqFinding n a req p.after_hdr).severity = Severity.RESULT_VERIFY))
    ∧ (∀ (ri : Rpminspect) (s0 : Option String),
        (∃ f ∈ (inspect_rpmdeps ri s0).findings, f.severity = Severity.RESULT_VERIFY) →
          (inspect_rpmdeps ri s0).verdict = false) := by
  constructor
  · intro peers n a afterDeps i k req p hlib hscan
    refine ⟨?_, rfl⟩
    unfold libStep
    rw [if_pos hlib]
    rw [← expectedToken_eq_ite p.after_hdr, ← hasExplicitReq_iff]
    rw [List.mem_append]
    constructor
    · intro hmem
      rcases hmem with hmem | hmem
      · unfold libMissingFindings at hmem
        rw [hscan] at hmem
        dsimp only at hmem
        by_cases hhas : hasExplicitReq afterDeps p.after_hdr.name
            (expectedToken p.after_hdr) = true
        · rw [if_pos hhas] at hmem
          simp at hmem
        · simp [hhas]
      · exfalso
        unfold libMultipleFindings at hmem
        split at hmem
        · rw [List.mem_singleton] at hmem
          have := congrArg Finding.tag hmem
          simp [missingReqFinding, multipleFinding] at this
        · simp at hmem
    · intro hhas
      left
      unfold libMissingFindings
      rw [hscan]
      dsimp only
      rw [if_neg (by simpa using hhas)]
      exact List.mem_singleton.mpr rfl
  · intro ri s0 hex
    obtain ⟨f, hf, hsev⟩ := hex
    by_contra hv
    rw [Bool.not_eq_false, inspect_rpmdeps_verdict] at hv
    rw [inspect_rpmdeps_findings, List.mem_append] at hf
    rcases hf with hf | hf
    · have hall := inspectCore_all ri
      rw [hv] at hall
      have hclean := List.all_eq_true.mp hall.symm f hf
      rw [cleanFinding_iff] at hclean
      exact hclean.1.1 hsev
    · rw [hv, if_pos rfl, List.mem_singleton] at hf
      subst hf
      simp [okFinding] at hsev

/-- C4 witness: in the two-provider build, subpackage A carries no explicit
`Requires: B1 = 2.0-1`, so the missing-requirement finding naming B1 is
emitted and the run's verdict is false. -/
theorem c4_witness :
    missingReqFinding "A" "x86_64" reqLibFoo hdrProvB1
        ∈ (libStep exTwoProvidersBuild.peers "A" "x86_64" [reqLibFoo] 0 0 reqLibFoo).1
    ∧ (inspect_rpmdeps exTwoProvidersBuild none).verdict = false :=
  ⟨((c4_missing_explicit_requirement.1 exTwoProvidersBuild.peers "A" "x86_64" [reqLibFoo]
      0 0 reqLibFoo ⟨none, hdrProvB1, none, none⟩ (by decide) (by decide)).1).mpr (by decide),
   c4_missing_explicit_requirement.2 exTwoProvidersBuild none (by decide)⟩
theorem runChecks_forall_prop (p : Finding → Prop) (steps : List (List Finding × Bool))
    (h : ∀ s ∈ steps, ∀ f ∈ s.1, p f) :
    ∀ f ∈ (runChecks steps).1, p f := by
  rw [runChecks_fst]
  intro f hf
  rw [List.mem_flatMap] at hf
  obtain ⟨s, hs, hfs⟩ := hf
  exact h s hs f hfs

/-- In a rebase, every change is expected. -/
theorem expected_deprule_change_rebase (d : Deprule) (h : Header)
    (peers : List RpmPeer) : expected_deprule_change true d h peers = true := by
  unfold expected_deprule_change
  by_cases hs : h.isSource = true
  · rw [if_pos hs]
  · rw [if_neg hs, if_pos rfl]

theorem classifyAfterStep_peer_none (rebase : Bool) (peers : List RpmPeer)
    (h : Header) (d : Deprule) (hpd : d.peer_deprule = none) :
    classifyAfterStep rebase peers h d
      = ([⟨(rebaseSevWav rebase).1, (rebaseSevWav rebase).2,
          some Remedy.REMEDY_RPMDEPS_GAINED, Verb.VERB_ADDED,
          some (strdeprule d.toData), some h.arch,
          FindingTag.gained h.name h.arch d.toData⟩],
        ! decide ((rebaseSevWav rebase).1 = Severity.RESULT_VERIFY)) := by
  unfold classifyAfterStep
  rw [hpd]

theorem classifyAfterStep_retained (rebase : Bool) (peers : List RpmPeer)
    (h : Header) (d : Deprule) (pd : DepruleData) (hpd : d.peer_deprule = some pd)
    (hm : deprules_match d pd = true) :
    classifyAfterStep rebase peers h d
      = ([⟨Severity.RESULT_INFO, Waiver.NOT_WAIVABLE, none, Verb.VERB_OK,
          some (strdeprule d.toData), some h.arch,
          FindingTag.retained h.name h.arch d.toData⟩], true) := by
  unfold classifyAfterStep
  rw [hpd]
  dsimp only
  rw [if_pos hm]

theorem classifyAfterStep_changed (rebase : Bool) (peers : List RpmPeer)
    (h : Header) (d : Deprule) (pd : DepruleData) (hpd : d.peer_deprule = some pd)
    (hm : deprules_match d pd = false) :
    classifyAfterStep rebase peers h d
      = ([⟨(if expected_deprule_change rebase d h peers
            then (Severity.RESULT_INFO, Waiver.NOT_WAIVABLE)
            else rebaseSevWav rebase).1,
          (if expected_deprule_change rebase d h peers
            then (Severity.RESULT_INFO, Waiver.NOT_WAIVABLE)
            else rebaseSevWav rebase).2,
          some Remedy.REMEDY_RPMDEPS_CHANGED, Verb.VERB_CHANGED,
          some (strdeprule d.toData), some h.arch,
          FindingTag.changed h.name h.arch d.toData pd
            (expected_deprule_change rebase d h peers)⟩],
        ! decide ((if expected_deprule_change rebase d h peers
            then (Severity.RESULT_INFO, Waiver.NOT_WAIVABLE)
            else rebaseSevWav rebase).1 = Severity.RESULT_VERIFY)) := by
  unfold classifyAfterStep
  rw [hpd]
  dsimp only
  rw [if_neg (by simp [hm])]

theorem classifyBeforeStep_peer_none (rebase : Bool) (h : Header) (d : Deprule)
    (hpd : d.peer_deprule = none) :
    classifyBeforeStep rebase h d
      = ([⟨(rebaseSevWav rebase).1, (rebaseSevWav rebase).2,
          some Remedy.REMEDY_RPMDEPS_LOST, Verb.VERB_REMOVED,
          some (strdeprule d.toData), some h.arch,
          FindingTag.lost h.name h.arch d.toData⟩],
        ! decide ((rebaseSevWav rebase).1 = Severity.RESULT_VERIFY)) := by
  unfold classifyBeforeStep
  rw [hpd]

theorem classifyBeforeStep_peer_some (rebase : Bool) (h : Header) (d : Deprule)
    (pd : DepruleData) (hpd : d.peer_deprule = some pd) :
    classifyBeforeStep rebase h d = ([], true) := by
  unfold classifyBeforeStep
  rw [hpd]
/-- C6: the Change Classifier classifies an after-rule with no peer as
Gained, with a structurally equal peer as Retained (always informational,
non-waivable), and with a non-equal peer as Changed (carrying the oracle's
expected flag); a before-rule with no peer is Lost and one with a peer
yields nothing; identically peer-linked before/after rule sets produce only
Retained informational findings and a true sub-result; and in a rebase every
finding of the classifier is informational. -/
theorem c6_change_classifier :
    (∀ (rebase : Bool) (peers : List RpmPeer) (h : Header) (d : Deprule),
      d.peer_deprule = none →
        ∃ f, (classifyAfterStep rebase peers h d).1 = [f]
          ∧ f.tag = FindingTag.gained h.name h.arch d.toData
          ∧ f.severity = (rebaseSevWav rebase).1)
    ∧ (∀ (rebase : Bool) (peers : List RpmPeer) (h : Header) (d : Deprule)
        (pd : DepruleData), d.peer_deprule = some pd → deprules_match d pd = true →
        ∃ f, (classifyAfterStep rebase peers h d).1 = [f]
          ∧ f.tag = FindingTag.retained h.name h.arch d.toData
          ∧ f.severity = Severity.RESULT_INFO ∧ f.waiverauth = Waiver.NOT_WAIVABLE)
    ∧ (∀ (rebase : Bool) (peers : List RpmPeer) (h : Header) (d : Deprule)
        (pd : DepruleData), d.peer_deprule = some pd → deprules_match d pd = false →
        ∃ f, (classifyAfterStep rebase peers h d).1 = [f]
          ∧ f.tag = FindingTag.changed h.name h.arch d.toData pd
              (expected_deprule_change rebase d h peers))
    ∧ (∀ (rebase : Bool) (h : Header) (d : Deprule), d.peer_deprule = none →
        ∃ f, (classifyBeforeStep rebase h d).1 = [f]
          ∧ f.tag = FindingTag.lost h.name h.arch d.toData
          ∧ f.severity = (rebaseSevWav rebase).1)
    ∧ (∀ (rebase : Bool) (h : Header) (d : Deprule) (pd : DepruleData),
        d.peer_deprule = some pd → (classifyBeforeStep rebase h d).1 = [])
    ∧ (∀ (rebase : Bool) (peers : List RpmPeer) (p : RpmPeer),
        (∀ d ∈ effAfterDeps p, ∃ pd, d.peer_deprule = some pd
          ∧ deprules_match d pd = true) →
        (∀ l, effBeforeDeps p = some l → ∀ d ∈ l, d.peer_deprule ≠ none) →
        (classifyPeer rebase peers p).2 = true
        ∧ ∀ f ∈ (classifyPeer rebase peers p).1,
            isRetainedTag f.tag = true ∧ f.severity = Severity.RESULT_INFO)
    ∧ (∀ (peers : List RpmPeer) (p : RpmPeer),
        ∀ f ∈ (classifyPeer true peers p).1, f.severity = Severity.RESULT_INFO) := by
  refine ⟨?_, ?_, ?_, ?_, ?_, ?_, ?_⟩
  · intro rebase peers h d hpd
    rw [classifyAfterStep_peer_none rebase peers h d hpd]
    exact ⟨_, rfl, rfl, rfl⟩
  · intro rebase peers h d pd hpd hm
    rw [classifyAfterStep_retained rebase peers h d pd hpd hm]
    exact ⟨_, rfl, rfl, rfl, rfl⟩
  · intro rebase peers h d pd hpd hm
    rw [classifyAfterStep_changed rebase peers h d pd hpd hm]
    exact ⟨_, rfl, rfl⟩
  · intro rebase h d hpd
    rw [classifyBeforeStep_peer_none rebase h d hpd]
    exact ⟨_, rfl, rfl, rfl⟩
  · intro rebase h d pd hpd
    rw [classifyBeforeStep_peer_some rebase h d pd hpd]
  · intro rebase peers p hA hB
    have hAfterSnd : (runChecks ((effAfterDeps p).map
        (classifyAfterStep rebase peers p.after_hdr))).2 = true := by
      rw [runChecks_snd, all_map_general, List.all_eq_true]
      intro d hd
      obtain ⟨pd, hpd, hm⟩ := hA d hd
      rw [classifyAfterStep_retained rebase peers p.after_hdr d pd hpd hm]
    have hAfterFst : ∀ f ∈ (runChecks ((effAfterDeps p).map
        (classifyAfterStep rebase peers p.after_hdr))).1,
        isRetainedTag f.tag = true ∧ f.severity = Severity.RESULT_INFO := by
      apply runChecks_forall_prop
      intro s hs
      rw [List.mem_map] at hs
      obtain ⟨d, hd, rfl⟩ := hs
      obtain ⟨pd, hpd, hm⟩ := hA d hd
      rw [classifyAfterStep_retained rebase peers p.after_hdr d pd hpd hm]
      intro f hf
      rw [List.mem_singleton] at hf
      subst hf
      exact ⟨rfl, rfl⟩
    unfold classifyPeer
    cases hb : effBeforeDeps p with
    | none =>
        refine ⟨by simp [hAfterSnd], ?_⟩
        intro f hf
        simp only [List.append_nil] at hf
        exact hAfterFst f hf
    | some rules =>
        have hBeforeSnd : (runChecks (rules.map
            (classifyBeforeStep rebase p.after_hdr))).2 = true := by
          rw [runChecks_snd, all_map_general, List.all_eq_true]
          intro d hd
          cases hpd : d.peer_deprule with
          | none => exact absurd hpd (hB rules hb d hd)
          | some pd => rw [classifyBeforeStep_peer_some rebase p.after_hdr d pd hpd]
        have hBeforeFst : ∀ f ∈ (runChecks (rules.map
            (classifyBeforeStep rebase p.after_hdr))).1,
            isRetainedTag f.tag = true ∧ f.severity = Severity.RESULT_INFO := by
          apply runChecks_forall_prop
          intro s hs
          rw [List.mem_map] at hs
          obtain ⟨d, hd, rfl⟩ := hs
          cases hpd : d.peer_deprule with
          | none => exact absurd hpd (hB rules hb d hd)
          | some pd =>
              rw [classifyBeforeStep_peer_some rebase p.after_hdr d pd hpd]
              intro f hf
              simp at hf
        refine ⟨by simp [hAfterSnd, hBeforeSnd], ?_⟩
        intro f hf
        rw [List.mem_append] at hf
        rcases hf with hf | hf
        · exact hAfterFst f hf
        · exact hBeforeFst f hf
  · intro peers p f hf
    unfold classifyPeer at hf
    have hAfter : ∀ g ∈ (runChecks ((effAfterDeps p).map
        (classifyAfterStep true peers p.after_hdr))).1,
        g.severity = Severity.RESULT_INFO := by
      apply runChecks_forall_prop
      intro s hs
      rw [List.mem_map] at hs
      obtain ⟨d, hd, rfl⟩ := hs
      cases hpd : d.peer_deprule with
      | none =>
          rw [classifyAfterStep_peer_none true peers p.after_hdr d hpd]
          intro g hg
          rw [List.mem_singleton] at hg
          subst hg
          rfl
      | some pd =>
          by_cases hm : deprules_match d pd = true
          · rw [classifyAfterStep_retained true peers p.after_hdr d pd hpd hm]
            intro g hg
            rw [List.mem_singleton] at hg
            subst hg
            rfl
          · rw [Bool.not_eq_true] at hm
            rw [classifyAfterStep_changed true peers p.after_hdr d pd hpd hm]
            intro g hg
            rw [List.mem_singleton] at hg
            subst hg
            simp [expected_deprule_change_rebase d p.after_hdr peers]
    revert hf
    cases hb : effBeforeDeps p with
    | none =>
        intro hf
        simp only [List.append_nil] at hf
        exact hAfter f hf
    | some rules =>
        intro hf
        rw [List.mem_append] at hf
        rcases hf with hf | hf
        · exact hAfter f hf
        · revert hf
          apply runChecks_forall_prop
          intro s hs
          rw [List.mem_map] at hs
          obtain ⟨d, hd, rfl⟩ := hs
          cases hpd : d.peer_deprule with
          | none =>
              rw [classifyBeforeStep_peer_none true p.after_hdr d hpd]
              intro g hg
              rw [List.mem_singleton] at hg
              subst hg
              rfl
          | some pd =>
              rw [classifyBeforeStep_peer_some true p.after_hdr d pd hpd]
              intro g hg
              simp at hg
/-- A retained rule: identical to its peer link. -/
def ruleRet : Deprule :=
  ⟨DepType.tRequires, "x", DepOp.opEqual, some "1",
    some ⟨DepType.tRequires, "x", DepOp.opEqual, some "1"⟩, []⟩

/-- C6 witness: a rule structurally identical to its peer classifies as
Retained, informational and non-waivable. -/
theorem c6_witness :
    ∃ f, (classifyAfterStep false [] hdrReqA ruleRet).1 = [f]
      ∧ f.tag = FindingTag.retained hdrReqA.name hdrReqA.arch ruleRet.toData
      ∧ f.severity = Severity.RESULT_INFO ∧ f.waiverauth = Waiver.NOT_WAIVABLE :=
  c6_change_classifier.2.1 false [] hdrReqA ruleRet
    ⟨DepType.tRequires, "x", DepOp.opEqual, some "1"⟩ (by decide) (by decide)

theorem siblingMatch_iff (arch req : String) (p : RpmPeer) :
    siblingMatch arch req p = true ↔
      p.after_hdr.isSource = false ∧ p.after_hdr.arch = arch
        ∧ p.after_hdr.name = req := by
  simp only [siblingMatch, Bool.and_eq_true, Bool.not_eq_true', decide_eq_true_eq]
  rw [and_assoc]

theorem expected_deprule_change_eq (d : Deprule) (h : Header) (peers : List RpmPeer)
    (hsrc : h.isSource = false) :
    expected_deprule_change false d h peers
      = (match peers.find? (siblingMatch h.arch (trimIsa d.requirement)) with
         | none => false
         | some p =>
             if d.operator = DepOp.opEqual then
               if p.after_hdr.epoch > 0 then
                 decide (d.version = some (toString p.after_hdr.epoch ++ ":"
                   ++ p.after_hdr.version ++ "-" ++ p.after_hdr.release))
               else
                 decide (d.version
                   = some (p.after_hdr.version ++ "-" ++ p.after_hdr.release))
             else false) := by
  unfold expected_deprule_change
  rw [if_neg (by simp [hsrc]), if_neg (by simp)]
  rw [oracleSubject_eq_trim]
/-- C7: the Expected-Change Oracle accepts every change of a source package
and every change in a rebase; otherwise, with no sibling subpackage matching
the stripped subject the change is not expected, and — when non-source
subpackages with equal name and architecture agree on epoch/version/release
— the change is expected iff some non-source sibling of the same
architecture matches the stripped subject, the operator is exact-equality
and the version equals that sibling's version-release (epoch 0) or
epoch:version-release token; expected Changed findings are downgraded to
informational, non-waivable, with the expected qualifier set. -/
theorem c7_expected_change_oracle :
    (∀ (rebase : Bool) (d : Deprule) (h : Header) (peers : List RpmPeer),
      h.isSource = true → expected_deprule_change rebase d h peers = true)
    ∧ (∀ (d : Deprule) (h : Header) (peers : List RpmPeer),
        expected_deprule_change true d h peers = true)
    ∧ (∀ (rebase : Bool) (d : Deprule) (h : Header) (peers : List RpmPeer),
        h.isSource = false → rebase = false →
        (∀ p ∈ peers, ¬ (siblingMatch h.arch (trimIsa d.requirement) p = true)) →
        expected_deprule_change rebase d h peers = false)
    ∧ (∀ (rebase : Bool) (d : Deprule) (h : Header) (peers : List RpmPeer),
        h.isSource = false → rebase = false →
        (∀ p ∈ peers, ∀ q ∈ peers,
          p.after_hdr.isSource = false → q.after_hdr.isSource = false →
          p.after_hdr.name = q.after_hdr.name → p.after_hdr.arch = q.after_hdr.arch →
          p.after_hdr.epoch = q.after_hdr.epoch
            ∧ p.after_hdr.version = q.after_hdr.version
            ∧ p.after_hdr.release = q.after_hdr.release) →
        (expected_deprule_change rebase d h peers = true ↔
          ∃ p ∈ peers, p.after_hdr.isSource = false ∧ p.after_hdr.arch = h.arch
            ∧ p.after_hdr.name = trimIsa d.requirement
            ∧ d.operator = DepOp.opEqual
            ∧ d.version = some (if p.after_hdr.epoch = 0
                then p.after_hdr.version ++ "-" ++ p.after_hdr.release
                else toString p.after_hdr.epoch ++ ":" ++ p.after_hdr.version ++ "-"
                  ++ p.after_hdr.release)))
    ∧ (∀ (rebase : Bool) (peers : List RpmPeer) (h : Header) (d : Deprule)
        (pd : DepruleData), d.peer_deprule = some pd → deprules_match d pd = false →
        expected_deprule_change rebase d h peers = true →
        ∃ f, (classifyAfterStep rebase peers h d).1 = [f]
          ∧ f.severity = Severity.RESULT_INFO ∧ f.waiverauth = Waiver.NOT_WAIVABLE
          ∧ f.tag = FindingTag.changed h.name h.arch d.toData pd true) := by
  refine ⟨?_, ?_, ?_, ?_, ?_⟩
  · intro rebase d h peers hs
    unfold expected_deprule_change
    rw [if_pos hs]
  · intro d h peers
    exact expected_deprule_change_rebase d h peers
  · intro rebase d h peers hsrc hreb hno
    subst hreb
    rw [expected_deprule_change_eq d h peers hsrc]
    rw [List.find?_eq_none.mpr hno]
  · intro rebase d h peers hsrc hreb hUniq
    subst hreb
    rw [expected_deprule_change_eq d h peers hsrc]
    cases hfind : peers.find? (siblingMatch h.arch (trimIsa d.requirement)) with
    | none =>
        dsimp only
        constructor
        · intro hfalse
          exact absurd hfalse (by simp)
        · rintro ⟨p, hp, hns, harch, hname, _, _⟩
          have hsm : siblingMatch h.arch (trimIsa d.requirement) p = true :=
            (siblingMatch_iff _ _ p).mpr ⟨hns, harch, hname⟩
          exact absurd hsm (List.find?_eq_none.mp hfind p hp)
    | some p =>
        dsimp only
        have hpred := (siblingMatch_iff _ _ p).mp (List.find?_some hfind)
        have hpmem := List.mem_of_find?_eq_some hfind
        constructor
        · intro htrue
          by_cases hop : d.operator = DepOp.opEqual
          · rw [if_pos hop] at htrue
            refine ⟨p, hpmem, hpred.1, hpred.2.1, hpred.2.2, hop, ?_⟩
            by_cases he : p.after_hdr.epoch = 0
            · rw [if_neg (by omega)] at htrue
              rw [if_pos he]
              exact of_decide_eq_true htrue
            · rw [if_pos (Nat.pos_of_ne_zero he)] at htrue
              rw [if_neg he]
              exact of_decide_eq_true htrue
          · rw [if_neg hop] at htrue
            exact absurd htrue (by simp)
        · rintro ⟨q, hq, hqs, hqarch, hqname, hop, hver⟩
          rw [if_pos hop]
          obtain ⟨hE, hV, hR⟩ := hUniq p hpmem q hq hpred.1 hqs
            (by rw [hpred.2.2, hqname]) (by rw [hpred.2.1, hqarch])
          by_cases he : p.after_hdr.epoch = 0
          · rw [if_neg (by omega)]
            apply decide_eq_true
            rw [hver, if_pos (hE ▸ he), hV, hR]
          · rw [if_pos (Nat.pos_of_ne_zero he)]
            apply decide_eq_true
            rw [hver, if_neg (fun hq0 => he (hE.trans hq0)), hE, hV, hR]
  · intro rebase peers h d pd hpd hm hexp
    rw [classifyAfterStep_changed rebase peers h d pd hpd hm]
    refine ⟨_, rfl, ?_, ?_, ?_⟩
    · simp [hexp]
    · simp [hexp]
    · rw [hexp]

/-- C7 witness: a changed `Requires: B1 = 2.0-1` in a non-rebase build whose
sibling subpackage B1 has version-release `2.0-1` classifies as
expected. -/
theorem c7_witness :
    expected_deprule_change false
        ⟨DepType.tRequires, "B1", DepOp.opEqual, some "2.0-1", none, []⟩
        hdrReqA exTwoProvidersBuild.peers = true :=
  (c7_expected_change_oracle.2.2.2.1 false
      ⟨DepType.tRequires, "B1", DepOp.opEqual, some "2.0-1", none, []⟩
      hdrReqA exTwoProvidersBuild.peers (by decide) rfl (by decide)).mpr
    ⟨⟨none, hdrProvB1, none, none⟩, by decide, by decide, by decide, by decide,
      by decide, by decide⟩
/-- C1 witness: the verdict characterization instantiated at a concrete
build and initial spec-file state. -/
theorem c1_witness :
    ((inspect_rpmdeps exStrayBraceBuild none).verdict = true ↔
      ∀ f ∈ (inspect_rpmdeps exStrayBraceBuild none).findings,
        (f.severity ≠ Severity.RESULT_VERIFY ∧ f.severity ≠ Severity.RESULT_BAD)
          ∧ isEpochTag f.tag = false)
    ∧ ((inspect_rpmdeps exStrayBraceBuild none).findings.filter
          (fun f => decide (f.severity = Severity.RESULT_OK))).length
        = if (inspect_rpmdeps exStrayBraceBuild none).verdict = true then 1 else 0 :=
  c1_verdict_characterization exStrayBraceBuild none
